import Mathlib

/-!
napmessage: the type-indexed subscription registry.

A shallow embedding of `nap::MessageService` (`src/messageservice.h`) and of
`nap::MessageBase` (`src/messagebase.h`).

* `rtti::TypeInfo` tags are natural numbers; the class hierarchy known to the
  RTTI system is a parameter (`TypeRegistry`).
* A slot is identified by its address; what its callback does when invoked is a
  parameter (`Callbacks`): it returns, or it raises an exception.
* `std::unordered_map<rtti::TypeInfo, std::unique_ptr<SignalContainerBase>>` is
  an association list searched from the front.
* `assert` is modelled as checked: a failing assertion aborts the call.
* `void` member functions return the registry after the call.
-/

namespace nap

/-! ## Run-time type information -/

/-- The tag `rtti::TypeInfo` of a registered type. -/
abbrev TypeInfo := Nat

/-- Modelled from the spec: the RTTI system (`RTTI_ENABLE`, `RTTI_OF`,
`get_type`, `is_derived_from`) comes from an external library. It is the tag of
`MessageBase` and, for every tag, the tags of all its base classes. -/
structure TypeRegistry where
  /-- The tag `RTTI_OF(MessageBase)`. -/
  messageBase : TypeInfo
  /-- All base classes of a type. -/
  bases : TypeInfo → List TypeInfo

/-- Modelled from the spec: `t.is_derived_from(other)` of the external RTTI
library, "true iff the concrete runtime type is `U` or a type derived from
`U`". -/
def TypeRegistry.is_derived_from (rtti : TypeRegistry) (t other : TypeInfo) : Bool :=
  t == other || (rtti.bases t).contains other

/-! ## Messages, slots and callbacks -/

/-- A message value seen through a `const T&`: `type` is `get_type()`, the tag
of its most-derived run-time type, and `data` stands for its fields. -/
structure Message where
  type : TypeInfo
  data : Int
  deriving DecidableEq, Repr

/-- A `Slot<const T&>&` is identified by its address. -/
abbrev Slot := Nat

/-- An exception raised by a callback. -/
structure Exception where
  code : Nat
  deriving DecidableEq, Repr

/-- What the callback behind a slot does when invoked with a message: `none`
when it returns, `some e` when it raises `e`. Callbacks do not call the
registry. -/
abbrev Callbacks := Slot → Message → Option Exception

/-- One invocation of a slot with a message. -/
abbrev Invocation := Slot × Message

/-- How a call ended. -/
inductive Outcome where
  | returned
  | assertionFailed
  | raised (e : Exception)
  deriving DecidableEq, Repr

/-! ## The observer primitive `Signal<const T&>` -/

/-- Modelled from the spec: `Signal<const T&>` of `<nap/signalslot.h>` is not
part of the repository. It is "an ordered sequence of subscriber handles,
preserving insertion order". -/
structure Signal where
  mSlots : List Slot
  deriving DecidableEq, Repr

/-- Modelled from the spec: `Signal::connect` of `<nap/signalslot.h>`, "appends
`subscriber` to the ordered sequence. No uniqueness check". -/
def Signal.connect (sig : Signal) (slot : Slot) : Signal :=
  ⟨sig.mSlots ++ [slot]⟩

/-- Modelled from the spec: `Signal::disconnect` of `<nap/signalslot.h>`,
"removes the first occurrence matching `subscriber`'s identity from the
sequence. No-op, not an error, if the subscriber is not present". -/
def Signal.disconnect (sig : Signal) (slot : Slot) : Signal :=
  ⟨sig.mSlots.erase slot⟩

/-- Modelled from the spec: the loop of `Signal::trigger` of
`<nap/signalslot.h>` over the connected slots, "calls every currently
connected subscriber, in connection order"; a subscriber that raises "aborts
the remaining subscribers in that invocation pass". The result is the
invocations made, in order, and the exception that ended the pass, if any. -/
def triggerSlots (cb : Callbacks) (message : Message) :
    List Slot → List Invocation × Option Exception
  | [] => ([], none)
  | slot :: rest =>
    match cb slot message with
    | some e => ([(slot, message)], some e)
    | none =>
      let r := triggerSlots cb message rest
      ((slot, message) :: r.1, r.2)

/-- Modelled from the spec: `Signal::trigger` of `<nap/signalslot.h>`. -/
def Signal.trigger (cb : Callbacks) (sig : Signal) (message : Message) :
    List Invocation × Option Exception :=
  triggerSlots cb message sig.mSlots

/-! ## `MessageService::SignalContainerBase` and `SignalContainer<T>` -/

/-- An object of class `SignalContainer<U>` behind a `SignalContainerBase`
pointer: `messageType` is the `U` of its run-time type `SignalContainer<U>`
(what `get_type()` tells), `mSignal` its only member. -/
structure SignalContainer where
  messageType : TypeInfo
  mSignal : Signal
  deriving DecidableEq, Repr

/-- The call `is<SignalContainer<T>>()`, that is
`get_type().is_derived_from<SignalContainer<T>>()`: no class derives from
`SignalContainer<T>`, so the run-time type `SignalContainer<U>` passes exactly
when `U` is `T`. -/
def SignalContainer.is (c : SignalContainer) (T : TypeInfo) : Bool :=
  c.messageType == T

/-- The call `as<SignalContainer<T>>()`: `assert(is<T>())`, then the same
object; `none` is the failed assertion. -/
def SignalContainer.as (c : SignalContainer) (T : TypeInfo) : Option SignalContainer :=
  if c.is T then some c else none

/-- The member `SignalContainer<T>::trigger`. -/
def SignalContainer.trigger (cb : Callbacks) (c : SignalContainer) (message : Message) :
    List Invocation × Option Exception :=
  c.mSignal.trigger cb message

/-- The member `SignalContainer<T>::connect`. -/
def SignalContainer.connect (c : SignalContainer) (slot : Slot) : SignalContainer :=
  { c with mSignal := c.mSignal.connect slot }

/-- The member `SignalContainer<T>::disconnect`. -/
def SignalContainer.disconnect (c : SignalContainer) (slot : Slot) : SignalContainer :=
  { c with mSignal := c.mSignal.disconnect slot }

/-! ## The map `mSignalContainers` -/

/-- The entries of the `std::unordered_map`. -/
abbrev ContainerMap := List (TypeInfo × SignalContainer)

/-- The lookup `mSignalContainers.find(key)`: the container of the first entry
with that key, `none` for `end()`. -/
def ContainerMap.find : ContainerMap → TypeInfo → Option SignalContainer
  | [], _ => none
  | (k, c) :: rest, key => if k = key then some c else ContainerMap.find rest key

/-- Writing through a reference to the mapped value of an existing key: the
first entry with that key gets the new container, in place. -/
def ContainerMap.assign : ContainerMap → TypeInfo → SignalContainer → ContainerMap
  | [], _, _ => []
  | (k, c) :: rest, key, v =>
    if k = key then (k, v) :: rest else (k, c) :: ContainerMap.assign rest key v

/-- The assignment `mSignalContainers[key] = value`: overwrite the mapped value
of an existing key, insert a new entry otherwise. -/
def ContainerMap.set (m : ContainerMap) (key : TypeInfo) (v : SignalContainer) : ContainerMap :=
  match m.find key with
  | some _ => m.assign key v
  | none => (key, v) :: m

/-- The tags that have an entry. -/
def ContainerMap.keys (m : ContainerMap) : List TypeInfo :=
  m.map Prod.fst

/-! ## `MessageService` -/

/-- The state of a `MessageService`: its only member of its own. -/
structure MessageService where
  mSignalContainers : ContainerMap
  deriving DecidableEq, Repr

/-- The registry right after construction. -/
def MessageService.empty : MessageService :=
  ⟨[]⟩

/-- The member `MessageService::subscribeToMessage<T>(slot)`; `none` is a failed
assertion. -/
def MessageService.subscribeToMessage (svc : MessageService) (T : TypeInfo) (slot : Slot) :
    Option MessageService :=
  -- find slot of type
  let containers :=
    match svc.mSignalContainers.find T with
    | none => svc.mSignalContainers.set T ⟨T, ⟨[]⟩⟩ -- create new slot container
    | some _ => svc.mSignalContainers
  -- connect: `mSignalContainers[RTTI_OF(T)]` on a key the lines above made present
  match containers.find T with
  | none => none
  | some signal_container =>
    match signal_container.as T with
    | none => none
    | some container => some ⟨containers.assign T (container.connect slot)⟩

/-- The member `MessageService::unsubscribeFromMessage<T>(slot)`; `none` is a
failed assertion. -/
def MessageService.unsubscribeFromMessage (svc : MessageService) (T : TypeInfo) (slot : Slot) :
    Option MessageService :=
  match svc.mSignalContainers.find T with
  | none => some svc
  | some signal_container =>
    match signal_container.as T with
    | none => none
    | some container => some ⟨svc.mSignalContainers.assign T (container.disconnect slot)⟩

/-- What a `dispatchMessage` call did: the registry after it, the slot
invocations it made, in order, and how it ended. -/
structure DispatchResult where
  registry : MessageService
  calls : List Invocation
  outcome : Outcome
  deriving DecidableEq, Repr

/-- The member `MessageService::dispatchMessage<T>(message)`. -/
def MessageService.dispatchMessage (rtti : TypeRegistry) (cb : Callbacks)
    (svc : MessageService) (T : TypeInfo) (message : Message) : DispatchResult :=
  if rtti.is_derived_from message.type rtti.messageBase then
    match svc.mSignalContainers.find T with
    | none => ⟨svc, [], .returned⟩
    | some signal_container =>
      match signal_container.as T with
      | none => ⟨svc, [], .assertionFailed⟩
      | some container =>
        match container.trigger cb message with
        | (calls, none) => ⟨svc, calls, .returned⟩
        | (calls, some e) => ⟨svc, calls, .raised e⟩
  else
    ⟨svc, [], .assertionFailed⟩

/-! ## Observing and driving the registry -/

/-- The subscriber sequence stored under a tag, in connection order; empty when
the tag has no entry. -/
def MessageService.slotsOf (svc : MessageService) (T : TypeInfo) : List Slot :=
  match svc.mSignalContainers.find T with
  | none => []
  | some c => c.mSignal.mSlots

/-- Whether the map has an entry under a tag. -/
def MessageService.hasGroup (svc : MessageService) (T : TypeInfo) : Bool :=
  (svc.mSignalContainers.find T).isSome

/-- A call of the public interface. -/
inductive Call where
  | subscribe (T : TypeInfo) (slot : Slot)
  | unsubscribe (T : TypeInfo) (slot : Slot)
  | dispatch (T : TypeInfo) (message : Message)
  deriving DecidableEq, Repr

/-- One call on the registry; `none` when an assertion aborted it. A dispatch
ended by a callback's exception leaves a registry to go on with. -/
def MessageService.step (rtti : TypeRegistry) (cb : Callbacks) (svc : MessageService) :
    Call → Option MessageService
  | .subscribe T slot => svc.subscribeToMessage T slot
  | .unsubscribe T slot => svc.unsubscribeFromMessage T slot
  | .dispatch T message =>
    let r := svc.dispatchMessage rtti cb T message
    if r.outcome = .assertionFailed then none else some r.registry

/-- A sequence of calls, one after the other. -/
def MessageService.run (rtti : TypeRegistry) (cb : Callbacks) :
    MessageService → List Call → Option MessageService
  | svc, [] => some svc
  | svc, c :: rest =>
    match svc.step rtti cb c with
    | none => none
    | some svc' => MessageService.run rtti cb svc' rest

/-- A registry state that some sequence of calls on the empty registry
produces. -/
def MessageService.Reachable (rtti : TypeRegistry) (cb : Callbacks) (svc : MessageService) : Prop :=
  ∃ calls : List Call, MessageService.run rtti cb MessageService.empty calls = some svc

/-- Subscribing the slots of a list to one type, first to last. -/
def MessageService.subscribeAll (svc : MessageService) (T : TypeInfo) :
    List Slot → Option MessageService
  | [] => some svc
  | slot :: rest =>
    match svc.subscribeToMessage T slot with
    | none => none
    | some svc' => MessageService.subscribeAll svc' T rest

/-- Every container sits under the tag of its own message type. -/
def ContainerMap.WellTyped (m : ContainerMap) : Prop :=
  ∀ e ∈ m, e.2.messageType = e.1

instance (m : ContainerMap) : Decidable m.WellTyped :=
  inferInstanceAs (Decidable (∀ e ∈ m, e.2.messageType = e.1))

/-- The messages a slot was invoked with, in order. -/
def receivedBy (slot : Slot) (calls : List Invocation) : List Message :=
  (calls.filter (fun i => i.1 = slot)).map Prod.snd

/-! ## `MessageBase` -/

/-- The member `MessageBase::is<U>()`, that is
`get_type().is_derived_from<U>()`. -/
def Message.is (rtti : TypeRegistry) (v : Message) (U : TypeInfo) : Bool :=
  rtti.is_derived_from v.type U

/-- The member `MessageBase::as<U>()`: `assert(is<U>())`, then the same object
through a `static_cast`; `none` is the failed assertion. -/
def Message.as (rtti : TypeRegistry) (v : Message) (U : TypeInfo) : Option Message :=
  if v.is rtti U then some v else none

/-! ## Sequences of calls for one slot -/

/-- A sequence of connects (`true`) and disconnects (`false`) of one slot to one
type, as calls of the registry. -/
def pairCalls (T : TypeInfo) (slot : Slot) (ops : List Bool) : List Call :=
  ops.map (fun b => if b then Call.subscribe T slot else Call.unsubscribe T slot)

/-- No initial part of the sequence has more disconnects than `depth` plus its
connects. -/
def neverBelow : Nat → List Bool → Bool
  | _, [] => true
  | depth, true :: rest => neverBelow (depth + 1) rest
  | 0, false :: _ => false
  | depth + 1, false :: rest => neverBelow depth rest

/-- Whether a call passes the message assertion of `dispatchMessage`: a dispatch
does when the class of its message derives from `MessageBase`, the other calls
have no such assertion. -/
def Call.messageOk (rtti : TypeRegistry) : Call → Bool
  | .subscribe _ _ => true
  | .unsubscribe _ _ => true
  | .dispatch _ message => rtti.is_derived_from message.type rtti.messageBase

/-! ## A small world for concrete cases -/

/-- Tags: 0 is `MessageBase`, 1 is `Ping` (a base), 2 is `DerivedPing`, derived
from `Ping`, 3 is `Pong`; 9 is a class outside the message hierarchy. -/
def demoTypes : TypeRegistry where
  messageBase := 0
  bases := fun t => if t = 1 then [0] else if t = 2 then [1, 0] else if t = 3 then [0] else []

/-- Callbacks that all return. -/
def quiet : Callbacks := fun _ _ => none

/-- Callbacks of which slot 66 raises and the others return. -/
def slot66Raises : Callbacks := fun slot _ => if slot = 66 then some ⟨1⟩ else none

/-- The registry after `subscribeToMessage<DerivedPing>(10)` and then
`subscribeToMessage<Ping>(20)`. -/
def pingRegistry : MessageService :=
  ⟨[(1, ⟨1, ⟨[20]⟩⟩), (2, ⟨2, ⟨[10]⟩⟩)]⟩

/-- The registry after slots 10, 20 and 10 again were subscribed to `Ping`. -/
def doubledRegistry : MessageService :=
  ⟨[(1, ⟨1, ⟨[10, 20, 10]⟩⟩)]⟩

/-- The registry after slots 10, 66 and 12 were subscribed to `Ping`. -/
def raisingRegistry : MessageService :=
  ⟨[(1, ⟨1, ⟨[10, 66, 12]⟩⟩)]⟩

end nap

namespace nap

/-! ## The map: lookup and assignment -/

theorem ContainerMap.find_mem {m : ContainerMap} {k : TypeInfo} {c : SignalContainer}
    (h : m.find k = some c) : (k, c) ∈ m := by
  induction m with
  | nil => simp [ContainerMap.find] at h
  | cons e rest ih =>
    obtain ⟨k0, c0⟩ := e
    by_cases hk : k0 = k
    · simp [ContainerMap.find, hk] at h
      simp [hk, h]
    · simp [ContainerMap.find, hk] at h
      exact List.mem_cons_of_mem _ (ih h)

theorem ContainerMap.find_assign_same {m : ContainerMap} {k : TypeInfo} {c : SignalContainer}
    (v : SignalContainer) (h : m.find k = some c) : (m.assign k v).find k = some v := by
  induction m with
  | nil => simp [ContainerMap.find] at h
  | cons e rest ih =>
    obtain ⟨k0, c0⟩ := e
    by_cases hk : k0 = k
    · simp [ContainerMap.find, ContainerMap.assign, hk]
    · simp [ContainerMap.find, hk] at h
      simp [ContainerMap.find, ContainerMap.assign, hk, ih h]

theorem ContainerMap.find_assign_of_ne (m : ContainerMap) {k k' : TypeInfo}
    (v : SignalContainer) (h : k' ≠ k) : (m.assign k v).find k' = m.find k' := by
  induction m with
  | nil => simp [ContainerMap.find, ContainerMap.assign]
  | cons e rest ih =>
    obtain ⟨k0, c0⟩ := e
    by_cases hk : k0 = k
    · subst hk
      have hk' : ¬ k0 = k' := fun h' => h h'.symm
      simp [ContainerMap.find, ContainerMap.assign, hk']
    · by_cases hk' : k0 = k'
      · subst hk'
        simp [ContainerMap.find, ContainerMap.assign, hk]
      · simp [ContainerMap.find, ContainerMap.assign, hk, hk', ih]

theorem ContainerMap.assign_self {m : ContainerMap} {k : TypeInfo} {c : SignalContainer}
    (h : m.find k = some c) : m.assign k c = m := by
  induction m with
  | nil => rfl
  | cons e rest ih =>
    obtain ⟨k0, c0⟩ := e
    by_cases hk : k0 = k
    · simp [ContainerMap.find, hk] at h
      simp [ContainerMap.assign, hk, h]
    · simp [ContainerMap.find, hk] at h
      simp [ContainerMap.assign, hk, ih h]

theorem ContainerMap.keys_assign (m : ContainerMap) (k : TypeInfo) (v : SignalContainer) :
    (m.assign k v).keys = m.keys := by
  induction m with
  | nil => rfl
  | cons e rest ih =>
    obtain ⟨k0, c0⟩ := e
    by_cases hk : k0 = k
    · simp [ContainerMap.assign, ContainerMap.keys, hk]
    · simp only [ContainerMap.keys] at ih
      simp [ContainerMap.assign, ContainerMap.keys, hk, ih]

theorem ContainerMap.find_eq_none_iff (m : ContainerMap) (k : TypeInfo) :
    m.find k = none ↔ k ∉ m.keys := by
  induction m with
  | nil => simp [ContainerMap.find, ContainerMap.keys]
  | cons e rest ih =>
    obtain ⟨k0, c0⟩ := e
    simp only [ContainerMap.keys] at ih
    by_cases hk : k0 = k
    · simp [ContainerMap.find, ContainerMap.keys, hk]
    · have hk' : ¬ k = k0 := fun h => hk h.symm
      simp [ContainerMap.find, ContainerMap.keys, hk, hk', ih]

theorem ContainerMap.wellTyped_nil : ContainerMap.WellTyped [] := by
  intro e h
  simp at h

theorem ContainerMap.wellTyped_cons {m : ContainerMap} {k : TypeInfo} {c : SignalContainer}
    (hm : m.WellTyped) (hc : c.messageType = k) : ContainerMap.WellTyped ((k, c) :: m) := by
  intro e h
  rcases List.mem_cons.1 h with h | h
  · subst h
    exact hc
  · exact hm _ h

theorem ContainerMap.wellTyped_assign {m : ContainerMap} {k : TypeInfo} {v : SignalContainer}
    (hm : m.WellTyped) (hv : v.messageType = k) : (m.assign k v).WellTyped := by
  induction m with
  | nil => exact hm
  | cons e rest ih =>
    obtain ⟨k0, c0⟩ := e
    have hrest : ContainerMap.WellTyped rest := fun e h => hm e (List.mem_cons_of_mem _ h)
    by_cases hk : k0 = k
    · simp only [ContainerMap.assign, hk, if_true]
      exact ContainerMap.wellTyped_cons hrest hv
    · simp only [ContainerMap.assign, hk, if_false]
      exact ContainerMap.wellTyped_cons (ih hrest) (hm _ (List.mem_cons_self _ _))

theorem ContainerMap.as_of_find {m : ContainerMap} {k : TypeInfo} {c : SignalContainer}
    (hm : m.WellTyped) (h : m.find k = some c) : c.as k = some c := by
  have : c.messageType = k := hm _ (ContainerMap.find_mem h)
  simp [SignalContainer.as, SignalContainer.is, this]

/-! ## The signal: one invocation pass -/

theorem triggerSlots_of_returning (cb : Callbacks) (message : Message) (slots : List Slot)
    (h : ∀ s ∈ slots, cb s message = none) :
    triggerSlots cb message slots = (slots.map (fun s => (s, message)), none) := by
  induction slots with
  | nil => rfl
  | cons s rest ih =>
    have hs : cb s message = none := h s (List.mem_cons_self _ _)
    have hrest := ih (fun t ht => h t (List.mem_cons_of_mem _ ht))
    simp [triggerSlots, hs, hrest]

theorem triggerSlots_calls_prefix (cb : Callbacks) (message : Message) (slots : List Slot) :
    (triggerSlots cb message slots).1 <+: slots.map (fun s => (s, message)) := by
  induction slots with
  | nil => simp [triggerSlots]
  | cons s rest ih =>
    cases hs : cb s message with
    | some e =>
      simp only [triggerSlots, hs, List.map_cons]
      exact ⟨rest.map (fun s => (s, message)), rfl⟩
    | none =>
      simp only [triggerSlots, hs, List.map_cons]
      exact (List.prefix_cons_inj _).2 ih

theorem triggerSlots_append_of_returning (cb : Callbacks) (message : Message)
    (pre rest : List Slot) (h : ∀ s ∈ pre, cb s message = none) :
    triggerSlots cb message (pre ++ rest)
      = (pre.map (fun s => (s, message)) ++ (triggerSlots cb message rest).1,
          (triggerSlots cb message rest).2) := by
  induction pre with
  | nil => simp
  | cons a tl ih =>
    have ha : cb a message = none := h a (List.mem_cons_self _ _)
    have := ih (fun t ht => h t (List.mem_cons_of_mem _ ht))
    simp [triggerSlots, ha, this]

theorem triggerSlots_singleton_calls (cb : Callbacks) (message : Message) (s : Slot) :
    (triggerSlots cb message [s]).1 = [(s, message)] := by
  cases hc : cb s message <;> simp [triggerSlots, hc]

/-! ## The three member functions, case by case -/

theorem MessageService.subscribeToMessage_absent (svc : MessageService) (T : TypeInfo)
    (slot : Slot) (h : svc.mSignalContainers.find T = none) :
    svc.subscribeToMessage T slot
      = some ⟨(T, ⟨T, ⟨[slot]⟩⟩) :: svc.mSignalContainers⟩ := by
  simp [MessageService.subscribeToMessage, h, ContainerMap.set, ContainerMap.find,
    ContainerMap.assign, SignalContainer.as, SignalContainer.is, SignalContainer.connect,
    Signal.connect]

theorem MessageService.subscribeToMessage_present (svc : MessageService) (T : TypeInfo)
    (slot : Slot) {c : SignalContainer} (hw : svc.mSignalContainers.WellTyped)
    (h : svc.mSignalContainers.find T = some c) :
    svc.subscribeToMessage T slot
      = some ⟨svc.mSignalContainers.assign T (c.connect slot)⟩ := by
  simp [MessageService.subscribeToMessage, h, ContainerMap.as_of_find hw h]

theorem MessageService.unsubscribeFromMessage_absent (svc : MessageService) (T : TypeInfo)
    (slot : Slot) (h : svc.mSignalContainers.find T = none) :
    svc.unsubscribeFromMessage T slot = some svc := by
  simp [MessageService.unsubscribeFromMessage, h]

theorem MessageService.unsubscribeFromMessage_present (svc : MessageService) (T : TypeInfo)
    (slot : Slot) {c : SignalContainer} (hw : svc.mSignalContainers.WellTyped)
    (h : svc.mSignalContainers.find T = some c) :
    svc.unsubscribeFromMessage T slot
      = some ⟨svc.mSignalContainers.assign T (c.disconnect slot)⟩ := by
  simp [MessageService.unsubscribeFromMessage, h, ContainerMap.as_of_find hw h]

theorem MessageService.dispatchMessage_registry (rtti : TypeRegistry) (cb : Callbacks)
    (svc : MessageService) (T : TypeInfo) (message : Message) :
    (svc.dispatchMessage rtti cb T message).registry = svc := by
  unfold MessageService.dispatchMessage
  split
  · split
    · rfl
    · split
      · rfl
      · split <;> rfl
  · rfl

theorem MessageService.dispatchMessage_calls_prefix (rtti : TypeRegistry) (cb : Callbacks)
    (svc : MessageService) (T : TypeInfo) (message : Message) :
    (svc.dispatchMessage rtti cb T message).calls
      <+: (svc.slotsOf T).map (fun s => (s, message)) := by
  unfold MessageService.dispatchMessage MessageService.slotsOf
  split
  · cases hf : svc.mSignalContainers.find T with
    | none => simp
    | some c =>
      cases ha : c.as T with
      | none => simp [ha]
      | some c' =>
        have hc : c' = c := by
          simp only [SignalContainer.as] at ha
          split at ha
          · exact (Option.some.inj ha).symm
          · cases ha
        subst hc
        have hp := triggerSlots_calls_prefix cb message c'.mSignal.mSlots
        simp only [ha, SignalContainer.trigger, Signal.trigger]
        split
        · next calls heq => rw [heq] at hp; exact hp
        · next calls e heq => rw [heq] at hp; exact hp
  · simp

theorem MessageService.dispatchMessage_calls (rtti : TypeRegistry) (cb : Callbacks)
    (svc : MessageService) (T : TypeInfo) (message : Message)
    (hw : svc.mSignalContainers.WellTyped)
    (hm : rtti.is_derived_from message.type rtti.messageBase = true) :
    (svc.dispatchMessage rtti cb T message).calls
      = (triggerSlots cb message (svc.slotsOf T)).1 := by
  unfold MessageService.slotsOf MessageService.dispatchMessage
  simp only [hm, if_true]
  cases hf : svc.mSignalContainers.find T with
  | none => simp [triggerSlots]
  | some c =>
    simp only [ContainerMap.as_of_find hw hf, SignalContainer.trigger, Signal.trigger]
    split
    · next calls heq => rw [heq]
    · next calls e heq => rw [heq]

theorem MessageService.dispatchMessage_returning (rtti : TypeRegistry) (cb : Callbacks)
    (svc : MessageService) (T : TypeInfo) (message : Message)
    (hw : svc.mSignalContainers.WellTyped)
    (hm : rtti.is_derived_from message.type rtti.messageBase = true)
    (hq : ∀ s ∈ svc.slotsOf T, cb s message = none) :
    svc.dispatchMessage rtti cb T message
      = ⟨svc, (svc.slotsOf T).map (fun s => (s, message)), .returned⟩ := by
  unfold MessageService.slotsOf at hq ⊢
  unfold MessageService.dispatchMessage
  simp only [hm, if_true]
  cases hf : svc.mSignalContainers.find T with
  | none => simp
  | some c =>
    rw [hf] at hq
    simp [ContainerMap.as_of_find hw hf, SignalContainer.trigger, Signal.trigger,
      triggerSlots_of_returning cb message c.mSignal.mSlots hq]

/-! ## Effects on the stored sequences -/

theorem MessageService.slotsOf_of_find_eq {svc svc' : MessageService} {T : TypeInfo}
    (h : svc'.mSignalContainers.find T = svc.mSignalContainers.find T) :
    svc'.slotsOf T = svc.slotsOf T := by
  simp [MessageService.slotsOf, h]

theorem MessageService.subscribeToMessage_effect (svc : MessageService) (T : TypeInfo)
    (slot : Slot) (hw : svc.mSignalContainers.WellTyped) :
    ∃ svc', svc.subscribeToMessage T slot = some svc' ∧
      svc'.mSignalContainers.WellTyped ∧
      svc'.slotsOf T = svc.slotsOf T ++ [slot] ∧
      ∀ T', T' ≠ T → svc'.mSignalContainers.find T' = svc.mSignalContainers.find T' := by
  cases hf : svc.mSignalContainers.find T with
  | none =>
    refine ⟨_, svc.subscribeToMessage_absent T slot hf, ?_, ?_, ?_⟩
    · exact ContainerMap.wellTyped_cons hw rfl
    · simp [MessageService.slotsOf, ContainerMap.find, hf]
    · intro T' hT'
      have : ¬ T = T' := fun h => hT' h.symm
      simp [ContainerMap.find, this]
  | some c =>
    have hc : c.messageType = T := hw _ (ContainerMap.find_mem hf)
    refine ⟨_, svc.subscribeToMessage_present T slot hw hf, ?_, ?_, ?_⟩
    · exact ContainerMap.wellTyped_assign hw hc
    · simp [MessageService.slotsOf, hf, ContainerMap.find_assign_same _ hf,
        SignalContainer.connect, Signal.connect]
    · intro T' hT'
      exact ContainerMap.find_assign_of_ne _ _ hT'

theorem MessageService.unsubscribeFromMessage_effect (svc : MessageService) (T : TypeInfo)
    (slot : Slot) (hw : svc.mSignalContainers.WellTyped) :
    ∃ svc', svc.unsubscribeFromMessage T slot = some svc' ∧
      svc'.mSignalContainers.WellTyped ∧
      svc'.slotsOf T = (svc.slotsOf T).erase slot ∧
      svc'.mSignalContainers.keys = svc.mSignalContainers.keys ∧
      ∀ T', T' ≠ T → svc'.mSignalContainers.find T' = svc.mSignalContainers.find T' := by
  cases hf : svc.mSignalContainers.find T with
  | none =>
    refine ⟨_, svc.unsubscribeFromMessage_absent T slot hf, hw, ?_, rfl, fun _ _ => rfl⟩
    simp [MessageService.slotsOf, hf]
  | some c =>
    have hc : c.messageType = T := hw _ (ContainerMap.find_mem hf)
    refine ⟨_, svc.unsubscribeFromMessage_present T slot hw hf, ?_, ?_, ?_, ?_⟩
    · exact ContainerMap.wellTyped_assign hw hc
    · simp [MessageService.slotsOf, hf, ContainerMap.find_assign_same _ hf,
        SignalContainer.disconnect, Signal.disconnect]
    · exact ContainerMap.keys_assign _ _ _
    · intro T' hT'
      exact ContainerMap.find_assign_of_ne _ _ hT'

/-! ## Reachable states are well typed -/

theorem MessageService.step_wellTyped (rtti : TypeRegistry) (cb : Callbacks)
    {svc svc' : MessageService} (c : Call) (hw : svc.mSignalContainers.WellTyped)
    (h : svc.step rtti cb c = some svc') : svc'.mSignalContainers.WellTyped := by
  cases c with
  | subscribe T slot =>
    obtain ⟨s1, h1, hw1, _⟩ := svc.subscribeToMessage_effect T slot hw
    simp only [MessageService.step] at h
    rw [h1] at h
    cases h
    exact hw1
  | unsubscribe T slot =>
    obtain ⟨s1, h1, hw1, _⟩ := svc.unsubscribeFromMessage_effect T slot hw
    simp only [MessageService.step] at h
    rw [h1] at h
    cases h
    exact hw1
  | dispatch T message =>
    simp only [MessageService.step] at h
    split at h
    · cases h
    · cases h
      rw [MessageService.dispatchMessage_registry]
      exact hw

theorem MessageService.run_wellTyped (rtti : TypeRegistry) (cb : Callbacks)
    (calls : List Call) {svc svc' : MessageService} (hw : svc.mSignalContainers.WellTyped)
    (h : MessageService.run rtti cb svc calls = some svc') :
    svc'.mSignalContainers.WellTyped := by
  induction calls generalizing svc with
  | nil =>
    simp only [MessageService.run] at h
    cases h
    exact hw
  | cons c rest ih =>
    simp only [MessageService.run] at h
    cases hs : svc.step rtti cb c with
    | none => rw [hs] at h; cases h
    | some s1 =>
      rw [hs] at h
      exact ih (MessageService.step_wellTyped rtti cb c hw hs) h

theorem MessageService.Reachable.wellTyped {rtti : TypeRegistry} {cb : Callbacks}
    {svc : MessageService} (h : svc.Reachable rtti cb) : svc.mSignalContainers.WellTyped := by
  obtain ⟨calls, hc⟩ := h
  exact MessageService.run_wellTyped rtti cb calls ContainerMap.wellTyped_nil hc

/-! ## Reachable states have one entry per tag -/

theorem MessageService.subscribeToMessage_keys (svc : MessageService) (T : TypeInfo)
    (slot : Slot) (hw : svc.mSignalContainers.WellTyped) {svc' : MessageService}
    (h : svc.subscribeToMessage T slot = some svc') :
    svc'.mSignalContainers.keys
      = if svc.hasGroup T then svc.mSignalContainers.keys
        else T :: svc.mSignalContainers.keys := by
  unfold MessageService.hasGroup
  cases hf : svc.mSignalContainers.find T with
  | none =>
    rw [svc.subscribeToMessage_absent T slot hf] at h
    cases h
    simp [ContainerMap.keys]
  | some c =>
    rw [svc.subscribeToMessage_present T slot hw hf] at h
    cases h
    simp [ContainerMap.keys_assign]

theorem MessageService.step_keys_nodup (rtti : TypeRegistry) (cb : Callbacks)
    {svc svc' : MessageService} (c : Call) (hw : svc.mSignalContainers.WellTyped)
    (hn : svc.mSignalContainers.keys.Nodup)
    (h : svc.step rtti cb c = some svc') : svc'.mSignalContainers.keys.Nodup := by
  cases c with
  | subscribe T slot =>
    simp only [MessageService.step] at h
    rw [svc.subscribeToMessage_keys T slot hw h]
    unfold MessageService.hasGroup
    cases hf : svc.mSignalContainers.find T with
    | none =>
      simp only [Option.isSome_none, Bool.false_eq_true, if_false]
      exact List.nodup_cons.2 ⟨(ContainerMap.find_eq_none_iff _ _).1 hf, hn⟩
    | some c =>
      simp only [Option.isSome_some, if_true]
      exact hn
  | unsubscribe T slot =>
    obtain ⟨s1, h1, _, _, hk, _⟩ := svc.unsubscribeFromMessage_effect T slot hw
    simp only [MessageService.step] at h
    rw [h1] at h
    cases h
    rw [hk]
    exact hn
  | dispatch T message =>
    simp only [MessageService.step] at h
    split at h
    · cases h
    · cases h
      rw [MessageService.dispatchMessage_registry]
      exact hn

theorem MessageService.run_keys_nodup (rtti : TypeRegistry) (cb : Callbacks)
    (calls : List Call) {svc svc' : MessageService} (hw : svc.mSignalContainers.WellTyped)
    (hn : svc.mSignalContainers.keys.Nodup)
    (h : MessageService.run rtti cb svc calls = some svc') :
    svc'.mSignalContainers.keys.Nodup := by
  induction calls generalizing svc with
  | nil =>
    simp only [MessageService.run] at h
    cases h
    exact hn
  | cons c rest ih =>
    simp only [MessageService.run] at h
    cases hs : svc.step rtti cb c with
    | none => rw [hs] at h; cases h
    | some s1 =>
      rw [hs] at h
      exact ih (MessageService.step_wellTyped rtti cb c hw hs)
        (MessageService.step_keys_nodup rtti cb c hw hn hs) h

theorem MessageService.Reachable.keys_nodup {rtti : TypeRegistry} {cb : Callbacks}
    {svc : MessageService} (h : svc.Reachable rtti cb) : svc.mSignalContainers.keys.Nodup := by
  obtain ⟨calls, hc⟩ := h
  exact MessageService.run_keys_nodup rtti cb calls ContainerMap.wellTyped_nil
    List.nodup_nil hc

theorem MessageService.Reachable.step {rtti : TypeRegistry} {cb : Callbacks}
    {svc svc' : MessageService} (h : svc.Reachable rtti cb) (c : Call)
    (hs : svc.step rtti cb c = some svc') : svc'.Reachable rtti cb := by
  obtain ⟨calls, hc⟩ := h
  refine ⟨calls ++ [c], ?_⟩
  have happ : ∀ (l : List Call) (a : MessageService),
      MessageService.run rtti cb a l = some svc →
      MessageService.run rtti cb a (l ++ [c]) = some svc' := by
    intro l
    induction l with
    | nil =>
      intro a ha
      simp only [MessageService.run] at ha
      cases ha
      simp [MessageService.run, hs]
    | cons x rest ih =>
      intro a ha
      simp only [MessageService.run, List.cons_append] at ha ⊢
      cases hx : a.step rtti cb x with
      | none => rw [hx] at ha; cases ha
      | some a1 =>
        rw [hx] at ha
        simp only []
        exact ih a1 ha
  exact happ calls _ hc

/-! ## Subscribing a list of slots, and counting invocations -/

theorem MessageService.subscribeAll_effect (T : TypeInfo) (subs : List Slot)
    (svc : MessageService) (hw : svc.mSignalContainers.WellTyped) :
    ∃ svc', svc.subscribeAll T subs = some svc' ∧
      svc'.mSignalContainers.WellTyped ∧
      svc'.slotsOf T = svc.slotsOf T ++ subs ∧
      ∀ T', T' ≠ T → svc'.mSignalContainers.find T' = svc.mSignalContainers.find T' := by
  induction subs generalizing svc with
  | nil => exact ⟨svc, rfl, hw, by simp, fun _ _ => rfl⟩
  | cons s rest ih =>
    obtain ⟨s1, h1, hw1, hs1, hf1⟩ := svc.subscribeToMessage_effect T s hw
    obtain ⟨s2, h2, hw2, hs2, hf2⟩ := ih s1 hw1
    refine ⟨s2, ?_, hw2, ?_, ?_⟩
    · simp [MessageService.subscribeAll, h1, h2]
    · rw [hs2, hs1]
      simp
    · intro T' hT'
      rw [hf2 T' hT', hf1 T' hT']

theorem count_invocations (slots : List Slot) (s : Slot) (message : Message) :
    (slots.map (fun t => (t, message))).count (s, message) = slots.count s := by
  induction slots with
  | nil => rfl
  | cons t rest ih =>
    by_cases h : t = s
    · subst h
      simp [List.count_cons, ih]
    · simp [List.count_cons, ih, h]

theorem receivedBy_append (s : Slot) (a b : List Invocation) :
    receivedBy s (a ++ b) = receivedBy s a ++ receivedBy s b := by
  simp [receivedBy, List.filter_append]

theorem receivedBy_of_prefix_not_mem (s : Slot) (message : Message) (slots : List Slot)
    (calls : List Invocation) (hp : calls <+: slots.map (fun t => (t, message)))
    (h : s ∉ slots) : receivedBy s calls = [] := by
  have hnot : ∀ i ∈ calls, ¬ (decide (i.1 = s) = true) := by
    intro i hi
    obtain ⟨t, ht, hti⟩ := List.mem_map.1 (hp.subset hi)
    subst hti
    simp only [decide_eq_true_eq]
    intro h'
    exact h (h' ▸ ht)
  simp [receivedBy, List.filter_eq_nil_iff.2 hnot]

theorem MessageService.empty_reachable (rtti : TypeRegistry) (cb : Callbacks) :
    MessageService.empty.Reachable rtti cb :=
  ⟨[], rfl⟩

theorem MessageService.slotsOf_empty (T : TypeInfo) : MessageService.empty.slotsOf T = [] := rfl

/-! ## The claims -/

/-- C1, order preservation: whatever the message type `T`, the message `m` (a
value of a class derived from `MessageBase`) and the pairwise distinct slots
`subs`, subscribing them to `T` in that order on the empty registry succeeds,
and one `dispatchMessage<T>(m)` then returns after invoking exactly the slots of
`subs`, in that order, each with `m` and each exactly once. The callbacks of
`subs` are taken to return when invoked with `m`. -/
theorem order_preservation (rtti : TypeRegistry) (cb : Callbacks) (T : TypeInfo)
    (m : Message) (subs : List Slot)
    (hm : rtti.is_derived_from m.type rtti.messageBase = true)
    (hret : ∀ s ∈ subs, cb s m = none)
    (hdistinct : subs.Nodup) :
    ∃ svc, MessageService.empty.subscribeAll T subs = some svc ∧
      svc.dispatchMessage rtti cb T m
        = ⟨svc, subs.map (fun s => (s, m)), .returned⟩ ∧
      ∀ s ∈ subs, (svc.dispatchMessage rtti cb T m).calls.count (s, m) = 1 := by
  obtain ⟨svc, h1, hw, hs, _⟩ :=
    MessageService.subscribeAll_effect T subs MessageService.empty ContainerMap.wellTyped_nil
  rw [MessageService.slotsOf_empty, List.nil_append] at hs
  have hd : svc.dispatchMessage rtti cb T m
      = ⟨svc, subs.map (fun s => (s, m)), .returned⟩ := by
    rw [MessageService.dispatchMessage_returning rtti cb svc T m hw hm (by rw [hs]; exact hret),
      hs]
  refine ⟨svc, h1, hd, ?_⟩
  intro s hs'
  rw [hd]
  simp only
  rw [count_invocations]
  exact List.count_eq_one_of_mem hdistinct hs'

/-- The fan-out scenario of C1: `H1` (slot 10) and `H2` (slot 11) subscribed to
`Ping`, one dispatch of `Ping{id:1}`. -/
theorem order_preservation_witness :
    ∃ svc, MessageService.empty.subscribeAll 1 [10, 11] = some svc ∧
      svc.dispatchMessage demoTypes quiet 1 ⟨1, 1⟩
        = ⟨svc, [(10, ⟨1, 1⟩), (11, ⟨1, 1⟩)], .returned⟩ ∧
      ∀ s ∈ [10, 11], (svc.dispatchMessage demoTypes quiet 1 ⟨1, 1⟩).calls.count (s, ⟨1, 1⟩) = 1 :=
  order_preservation demoTypes quiet 1 ⟨1, 1⟩ [10, 11] (by decide) (fun _ _ => rfl) (by decide)

theorem pingRegistry_reachable (cb : Callbacks) : pingRegistry.Reachable demoTypes cb :=
  ⟨[.subscribe 2 10, .subscribe 1 20], rfl⟩

/-- C2, type isolation: in a reachable registry state, for message types `A` and
`B` with different tags and a slot `s` connected under no tag but `A`, a
`dispatchMessage<B>(m)` never invokes `s`, whatever `m`; the slots it invokes are
an initial part of the sequence stored under `B`, and exactly that sequence when
`m` is a message (its class derives from `MessageBase`) and the callbacks of the
sequence return. -/
theorem type_isolation (rtti : TypeRegistry) (cb : Callbacks) (svc : MessageService)
    (A B : TypeInfo) (s : Slot) (m : Message)
    (hreach : svc.Reachable rtti cb)
    (hAB : A ≠ B)
    (honly : ∀ T, s ∈ svc.slotsOf T → T = A) :
    (∀ i ∈ (svc.dispatchMessage rtti cb B m).calls, i.1 ≠ s) ∧
    (svc.dispatchMessage rtti cb B m).calls <+: (svc.slotsOf B).map (fun t => (t, m)) ∧
    (rtti.is_derived_from m.type rtti.messageBase = true →
      (∀ t ∈ svc.slotsOf B, cb t m = none) →
      (svc.dispatchMessage rtti cb B m).calls.map Prod.fst = svc.slotsOf B) := by
  have hpre := svc.dispatchMessage_calls_prefix rtti cb B m
  refine ⟨?_, hpre, ?_⟩
  · intro i hi hs
    have hi' := hpre.subset hi
    obtain ⟨t, ht, hti⟩ := List.mem_map.1 hi'
    subst hti
    simp only at hs
    subst hs
    exact hAB (honly B ht).symm
  · intro hm hret
    rw [svc.dispatchMessage_returning rtti cb B m hreach.wellTyped hm hret]
    simp [List.map_map, Function.comp_def]

/-- A concrete case of C2: slot 10 is connected under `DerivedPing` only, and a
dispatch of a `Ping` invokes slot 20 alone. -/
theorem type_isolation_witness :
    pingRegistry.Reachable demoTypes quiet ∧
    (∀ i ∈ (pingRegistry.dispatchMessage demoTypes quiet 1 ⟨1, 5⟩).calls, i.1 ≠ 10) ∧
    (pingRegistry.dispatchMessage demoTypes quiet 1 ⟨1, 5⟩).calls.map Prod.fst
      = pingRegistry.slotsOf 1 :=
  have h := type_isolation demoTypes quiet pingRegistry 2 1 10 ⟨1, 5⟩
    (pingRegistry_reachable quiet) (by decide)
    (fun T hT => by
      by_cases h1 : (1 : Nat) = T
      · subst h1
        exact absurd hT (by decide)
      · by_cases h2 : (2 : Nat) = T
        · exact h2.symm
        · simp [MessageService.slotsOf, pingRegistry, ContainerMap.find, h1, h2] at hT)
  ⟨pingRegistry_reachable quiet, h.1, h.2.2 (by decide) (fun _ _ => rfl)⟩

/-- C3, static-type keying: `D` is derived from `B` and has another tag, the
registry is in a reachable state in which slot `s` is connected neither under
`B` nor under `D`, and `s` is then registered with `subscribeToMessage<B>`. A
value `m` of concrete type `D` dispatched with `dispatchMessage<D>` does not
invoke `s`; the same value dispatched with `dispatchMessage<B>` invokes `s`
exactly once (the callbacks connected under `B` before `s` return). For every
`T` the slots invoked by `dispatchMessage<T>` are taken from the sequence under
the tag of `T`, whatever the run-time type of the message. -/
theorem static_type_keying (rtti : TypeRegistry) (cb : Callbacks) (svc : MessageService)
    (B D : TypeInfo) (s : Slot) (m : Message)
    (hreach : svc.Reachable rtti cb)
    (hder : rtti.is_derived_from D B = true)
    (hne : D ≠ B)
    (hm : m.type = D)
    (hmsg : rtti.is_derived_from D rtti.messageBase = true)
    (hsB : s ∉ svc.slotsOf B)
    (hsD : s ∉ svc.slotsOf D)
    (hret : ∀ t ∈ svc.slotsOf B, cb t m = none) :
    ∃ svc', svc.subscribeToMessage B s = some svc' ∧
      (∀ i ∈ (svc'.dispatchMessage rtti cb D m).calls, i.1 ≠ s) ∧
      receivedBy s (svc'.dispatchMessage rtti cb B m).calls = [m] ∧
      ∀ (T : TypeInfo) (m' : Message),
        (svc'.dispatchMessage rtti cb T m').calls <+: (svc'.slotsOf T).map (fun t => (t, m')) := by
  have _ := hder
  obtain ⟨svc', h1, hw1, hs1, hf1⟩ := svc.subscribeToMessage_effect B s hreach.wellTyped
  refine ⟨svc', h1, ?_, ?_, fun T m' => svc'.dispatchMessage_calls_prefix rtti cb T m'⟩
  · intro i hi hs
    have hi' := (svc'.dispatchMessage_calls_prefix rtti cb D m).subset hi
    obtain ⟨t, ht, hti⟩ := List.mem_map.1 hi'
    subst hti
    simp only at hs
    subst hs
    rw [MessageService.slotsOf_of_find_eq (hf1 D hne)] at ht
    exact hsD ht
  · have hvalid : rtti.is_derived_from m.type rtti.messageBase = true := by rw [hm]; exact hmsg
    rw [svc'.dispatchMessage_calls rtti cb B m hw1 hvalid, hs1,
      triggerSlots_append_of_returning cb m _ _ hret, triggerSlots_singleton_calls]
    rw [receivedBy_append, receivedBy_of_prefix_not_mem s m (svc.slotsOf B) _
      (List.prefix_refl _) hsB]
    simp [receivedBy]

/-- A concrete case of C3: slot 10 registered for `Ping` on the empty registry,
a `DerivedPing{5}` dispatched once as `DerivedPing` and once as `Ping`. -/
theorem static_type_keying_witness :
    demoTypes.is_derived_from 2 1 = true ∧
    ∃ svc', MessageService.empty.subscribeToMessage 1 10 = some svc' ∧
      (∀ i ∈ (svc'.dispatchMessage demoTypes quiet 2 ⟨2, 5⟩).calls, i.1 ≠ 10) ∧
      receivedBy 10 (svc'.dispatchMessage demoTypes quiet 1 ⟨2, 5⟩).calls = [⟨2, 5⟩] ∧
      ∀ (T : TypeInfo) (m' : Message),
        (svc'.dispatchMessage demoTypes quiet T m').calls
          <+: (svc'.slotsOf T).map (fun t => (t, m')) :=
  ⟨by decide,
    static_type_keying demoTypes quiet MessageService.empty 1 2 10 ⟨2, 5⟩
      (MessageService.empty_reachable demoTypes quiet) (by decide) (by decide) rfl (by decide)
      (by decide) (by decide) (fun _ _ => rfl)⟩

/-- C4 as stated fails: `pingRegistry` has slot 20 under `Ping` and slot 10 under
`DerivedPing`. A `DerivedPing{5}` dispatched through a call site typed `Ping`,
a base of its run-time type, invokes slot 20; the group stored under the tag of
its run-time type is `[10]`. -/
theorem runtime_type_lookup_counterexample :
    pingRegistry.Reachable demoTypes quiet ∧
    demoTypes.is_derived_from (Message.mk 2 5).type 1 = true ∧
    demoTypes.is_derived_from (Message.mk 2 5).type demoTypes.messageBase = true ∧
    pingRegistry.slotsOf (Message.mk 2 5).type = [10] ∧
    (pingRegistry.dispatchMessage demoTypes quiet 1 ⟨2, 5⟩).calls = [(20, ⟨2, 5⟩)] ∧
    (pingRegistry.dispatchMessage demoTypes quiet 1 ⟨2, 5⟩).calls
      ≠ (pingRegistry.slotsOf (Message.mk 2 5).type).map (fun t => (t, ⟨2, 5⟩)) :=
  ⟨pingRegistry_reachable quiet, by decide, by decide, by decide, by decide, by decide⟩

/-- C4, amended: dispatch looks up the group by the static type parameter. In
every reachable registry state, for every type `T` of the call site and every
message value `m` (of a class derived from `MessageBase`), whatever the run-time
type of `m`, `dispatchMessage<T>(m)` selects the group stored under the tag of
`T`: it returns after invoking each slot of that sequence (empty when there is
no group) in connection order with `m`, the callbacks returning, and leaves the
map as it was, so it creates no group. -/
theorem dispatch_by_static_type (rtti : TypeRegistry) (cb : Callbacks) (svc : MessageService)
    (T : TypeInfo) (m : Message)
    (hreach : svc.Reachable rtti cb)
    (hm : rtti.is_derived_from m.type rtti.messageBase = true)
    (hret : ∀ t ∈ svc.slotsOf T, cb t m = none) :
    svc.dispatchMessage rtti cb T m
        = ⟨svc, (svc.slotsOf T).map (fun t => (t, m)), .returned⟩ ∧
      (svc.hasGroup T = false →
        (svc.dispatchMessage rtti cb T m).calls = [] ∧
        (svc.dispatchMessage rtti cb T m).registry.hasGroup T = false) := by
  have hd := svc.dispatchMessage_returning rtti cb T m hreach.wellTyped hm hret
  refine ⟨hd, ?_⟩
  intro hg
  rw [hd]
  refine ⟨?_, hg⟩
  unfold MessageService.hasGroup at hg
  unfold MessageService.slotsOf
  cases hf : svc.mSignalContainers.find T with
  | none => rfl
  | some c => simp [hf] at hg

/-- A concrete case of the amended C4: the `DerivedPing{5}` dispatched as `Ping`
on `pingRegistry`. -/
theorem dispatch_by_static_type_witness :
    pingRegistry.dispatchMessage demoTypes quiet 1 ⟨2, 5⟩
        = ⟨pingRegistry, (pingRegistry.slotsOf 1).map (fun t => (t, ⟨2, 5⟩)), .returned⟩ ∧
      (pingRegistry.hasGroup 1 = false →
        (pingRegistry.dispatchMessage demoTypes quiet 1 ⟨2, 5⟩).calls = [] ∧
        (pingRegistry.dispatchMessage demoTypes quiet 1 ⟨2, 5⟩).registry.hasGroup 1 = false) :=
  dispatch_by_static_type demoTypes quiet pingRegistry 1 ⟨2, 5⟩
    (pingRegistry_reachable quiet) (by decide) (fun _ _ => rfl)

/-- C5, unsubscribe stops delivery: in a reachable registry state in which slot
`s` is not connected to `T`, the calls `subscribeToMessage<T>(s)`,
`dispatchMessage<T>(m1)`, `unsubscribeFromMessage<T>(s)`, `dispatchMessage<T>(m2)`
go through, and over the two dispatches `s` is invoked exactly once, with `m1`,
the second dispatch not invoking it at all. `m1` is a message and the callbacks
connected to `T` before `s` return on it. -/
theorem unsubscribe_stops_delivery (rtti : TypeRegistry) (cb : Callbacks)
    (svc : MessageService) (T : TypeInfo) (s : Slot) (m1 m2 : Message)
    (hreach : svc.Reachable rtti cb)
    (hs : s ∉ svc.slotsOf T)
    (hm1 : rtti.is_derived_from m1.type rtti.messageBase = true)
    (hret : ∀ t ∈ svc.slotsOf T, cb t m1 = none) :
    ∃ svc1 svc2, svc.subscribeToMessage T s = some svc1 ∧
      (svc1.dispatchMessage rtti cb T m1).outcome ≠ .assertionFailed ∧
      (svc1.dispatchMessage rtti cb T m1).registry.unsubscribeFromMessage T s = some svc2 ∧
      receivedBy s (svc1.dispatchMessage rtti cb T m1).calls = [m1] ∧
      receivedBy s (svc2.dispatchMessage rtti cb T m2).calls = [] ∧
      receivedBy s ((svc1.dispatchMessage rtti cb T m1).calls
        ++ (svc2.dispatchMessage rtti cb T m2).calls) = [m1] := by
  obtain ⟨svc1, h1, hw1, hs1, _⟩ := svc.subscribeToMessage_effect T s hreach.wellTyped
  obtain ⟨svc2, h2, _, hs2, _⟩ := svc1.unsubscribeFromMessage_effect T s hw1
  have hslots2 : svc2.slotsOf T = svc.slotsOf T := by
    rw [hs2, hs1, List.erase_append_right _ hs]
    simp
  have hfirst : receivedBy s (svc1.dispatchMessage rtti cb T m1).calls = [m1] := by
    rw [svc1.dispatchMessage_calls rtti cb T m1 hw1 hm1, hs1,
      triggerSlots_append_of_returning cb m1 _ _ hret, triggerSlots_singleton_calls,
      receivedBy_append, receivedBy_of_prefix_not_mem s m1 (svc.slotsOf T) _
        (List.prefix_refl _) hs]
    simp [receivedBy]
  have hsecond : receivedBy s (svc2.dispatchMessage rtti cb T m2).calls = [] := by
    refine receivedBy_of_prefix_not_mem s m2 (svc2.slotsOf T) _
      (svc2.dispatchMessage_calls_prefix rtti cb T m2) ?_
    rw [hslots2]
    exact hs
  refine ⟨svc1, svc2, h1, ?_, ?_, hfirst, hsecond, ?_⟩
  · unfold MessageService.dispatchMessage
    simp only [hm1, if_true]
    cases hf : svc1.mSignalContainers.find T with
    | none => simp
    | some c =>
      simp only [ContainerMap.as_of_find hw1 hf]
      split <;> simp
  · rw [MessageService.dispatchMessage_registry]
    exact h2
  · rw [receivedBy_append, hfirst, hsecond]
    rfl

/-- The end-to-end scenario of C5: `H1` is slot 10, subscribed to `Ping` on the
empty registry; `Ping{id:7}` is dispatched, `H1` unsubscribed, `Ping{id:9}`
dispatched. `H1` has recorded `[7]`. -/
theorem unsubscribe_stops_delivery_witness :
    ∃ svc1 svc2, MessageService.empty.subscribeToMessage 1 10 = some svc1 ∧
      (svc1.dispatchMessage demoTypes quiet 1 ⟨1, 7⟩).registry.unsubscribeFromMessage 1 10
        = some svc2 ∧
      (receivedBy 10 ((svc1.dispatchMessage demoTypes quiet 1 ⟨1, 7⟩).calls
        ++ (svc2.dispatchMessage demoTypes quiet 1 ⟨1, 9⟩).calls)).map Message.data = [7] :=
  have h := unsubscribe_stops_delivery demoTypes quiet MessageService.empty 1 10
    ⟨1, 7⟩ ⟨1, 9⟩ (MessageService.empty_reachable demoTypes quiet) (by decide) (by decide)
    (fun _ _ => rfl)
  match h with
  | ⟨svc1, svc2, h1, _, h2, _, _, h3⟩ => ⟨svc1, svc2, h1, h2, by rw [h3]; rfl⟩

/-- C6, dispatch with no group is a silent no-op: in every registry state with
no entry under the tag of `T`, for every message `m` (of a class derived from
`MessageBase`), `dispatchMessage<T>(m)` returns without error, invokes no
callback and leaves the map as it was, without an entry for `T`. -/
theorem dispatch_without_group (rtti : TypeRegistry) (cb : Callbacks) (svc : MessageService)
    (T : TypeInfo) (m : Message)
    (habsent : svc.hasGroup T = false)
    (hm : rtti.is_derived_from m.type rtti.messageBase = true) :
    svc.dispatchMessage rtti cb T m = ⟨svc, [], .returned⟩ ∧
      (svc.dispatchMessage rtti cb T m).registry.hasGroup T = false := by
  have hf : svc.mSignalContainers.find T = none := by
    unfold MessageService.hasGroup at habsent
    cases h : svc.mSignalContainers.find T with
    | none => rfl
    | some c => simp [h] at habsent
  have hd : svc.dispatchMessage rtti cb T m = ⟨svc, [], .returned⟩ := by
    simp [MessageService.dispatchMessage, hm, hf]
  refine ⟨hd, ?_⟩
  rw [hd]
  exact habsent

/-- A concrete case of C6: a `Pong` dispatched on `pingRegistry`, which has no
entry for `Pong`, with callbacks of which one would raise. -/
theorem dispatch_without_group_witness :
    pingRegistry.hasGroup 3 = false ∧
    pingRegistry.dispatchMessage demoTypes slot66Raises 3 ⟨3, 4⟩ = ⟨pingRegistry, [], .returned⟩ ∧
      (pingRegistry.dispatchMessage demoTypes slot66Raises 3 ⟨3, 4⟩).registry.hasGroup 3 = false :=
  ⟨by decide, dispatch_without_group demoTypes slot66Raises pingRegistry 3 ⟨3, 4⟩
    (by decide) (by decide)⟩

/-- C7, unsubscribing what is not there is a no-op: in every reachable registry
state, if no group exists for the tag of `T`, or one exists and slot `s` is not
in its sequence, `unsubscribeFromMessage<T>(s)` returns without error and leaves
the whole map as it was: no entry is created, and the sequence of `T` and every
other group are unchanged. -/
theorem unsubscribe_absent_noop (rtti : TypeRegistry) (cb : Callbacks) (svc : MessageService)
    (T : TypeInfo) (s : Slot)
    (hreach : svc.Reachable rtti cb)
    (hs : svc.hasGroup T = false ∨ (svc.hasGroup T = true ∧ s ∉ svc.slotsOf T)) :
    svc.unsubscribeFromMessage T s = some svc := by
  unfold MessageService.hasGroup MessageService.slotsOf at hs
  cases hf : svc.mSignalContainers.find T with
  | none => exact svc.unsubscribeFromMessage_absent T s hf
  | some c =>
    rw [hf] at hs
    have hnot : s ∉ c.mSignal.mSlots := by
      rcases hs with h | h
      · simp at h
      · exact h.2
    rw [svc.unsubscribeFromMessage_present T s hreach.wellTyped hf]
    have hc : c.disconnect s = c := by
      simp [SignalContainer.disconnect, Signal.disconnect, List.erase_of_not_mem hnot]
    rw [hc, ContainerMap.assign_self hf]

/-- Two concrete cases of C7 on `pingRegistry`: `Pong` has no group, and slot 10
is not in the sequence of `Ping`. -/
theorem unsubscribe_absent_noop_witness :
    pingRegistry.unsubscribeFromMessage 3 10 = some pingRegistry ∧
    pingRegistry.unsubscribeFromMessage 1 10 = some pingRegistry :=
  ⟨unsubscribe_absent_noop demoTypes quiet pingRegistry 3 10 (pingRegistry_reachable quiet)
      (Or.inl (by decide)),
    unsubscribe_absent_noop demoTypes quiet pingRegistry 1 10 (pingRegistry_reachable quiet)
      (Or.inr ⟨by decide, by decide⟩)⟩

/-- C8, lazy creation is idempotent: in a reachable registry state,
`subscribeToMessage<T>(s)` goes through. With no entry for the tag of `T` it
adds exactly one entry, under that tag, with the sequence `[s]`; with an entry
it adds none, and the sequence of `T` is the old one followed by `s`. Either way
the other tags keep their entries. A second `subscribeToMessage<T>(s2)` then
leaves exactly one entry for `T`, and when `s` and `s2` are distinct and were not
connected to `T` before, one `dispatchMessage<T>(m)` invokes each of the two
exactly once (`m` a message, the callbacks connected to `T` returning). -/
theorem lazy_creation_idempotent (rtti : TypeRegistry) (cb : Callbacks) (svc : MessageService)
    (T : TypeInfo) (s : Slot)
    (hreach : svc.Reachable rtti cb) :
    ∃ svc', svc.subscribeToMessage T s = some svc' ∧
      (svc.hasGroup T = false →
        svc'.mSignalContainers = (T, ⟨T, ⟨[s]⟩⟩) :: svc.mSignalContainers) ∧
      (svc.hasGroup T = true →
        svc'.mSignalContainers.keys = svc.mSignalContainers.keys ∧
        svc'.slotsOf T = svc.slotsOf T ++ [s]) ∧
      (∀ T', T' ≠ T → svc'.mSignalContainers.find T' = svc.mSignalContainers.find T') ∧
      ∀ s2 : Slot, ∃ svc2, svc'.subscribeToMessage T s2 = some svc2 ∧
        svc2.mSignalContainers.keys.count T = 1 ∧
        svc2.slotsOf T = svc.slotsOf T ++ [s, s2] ∧
        ∀ m : Message, s ≠ s2 → s ∉ svc.slotsOf T → s2 ∉ svc.slotsOf T →
          rtti.is_derived_from m.type rtti.messageBase = true →
          (∀ t ∈ svc.slotsOf T ++ [s, s2], cb t m = none) →
          (svc2.dispatchMessage rtti cb T m).calls.count (s, m) = 1 ∧
          (svc2.dispatchMessage rtti cb T m).calls.count (s2, m) = 1 := by
  have hw := hreach.wellTyped
  obtain ⟨svc', h1, hw1, hs1, hf1⟩ := svc.subscribeToMessage_effect T s hw
  have hreach1 : svc'.Reachable rtti cb := hreach.step (.subscribe T s) h1
  refine ⟨svc', h1, ?_, ?_, hf1, ?_⟩
  · intro hg
    have hf : svc.mSignalContainers.find T = none := by
      unfold MessageService.hasGroup at hg
      cases h : svc.mSignalContainers.find T with
      | none => rfl
      | some c => simp [h] at hg
    rw [svc.subscribeToMessage_absent T s hf] at h1
    cases h1
    rfl
  · intro hg
    refine ⟨?_, hs1⟩
    rw [svc.subscribeToMessage_keys T s hw h1, hg]
    rfl
  · intro s2
    obtain ⟨svc2, h2, hw2, hs2, _⟩ := svc'.subscribeToMessage_effect T s2 hw1
    have hreach2 : svc2.Reachable rtti cb := hreach1.step (.subscribe T s2) h2
    have hslots : svc2.slotsOf T = svc.slotsOf T ++ [s, s2] := by
      rw [hs2, hs1]
      simp
    have hmem : T ∈ svc2.mSignalContainers.keys := by
      by_contra hnot
      have hnone := (ContainerMap.find_eq_none_iff _ _).2 hnot
      have : svc2.slotsOf T = [] := by simp [MessageService.slotsOf, hnone]
      rw [hslots] at this
      simp at this
    refine ⟨svc2, h2, List.count_eq_one_of_mem hreach2.keys_nodup hmem, hslots, ?_⟩
    intro m hne hs hs2' hm hret
    have hd := svc2.dispatchMessage_returning rtti cb T m hw2 hm (by rw [hslots]; exact hret)
    rw [hd, hslots]
    simp only
    rw [count_invocations, count_invocations]
    have c1 : (svc.slotsOf T).count s = 0 := List.count_eq_zero_of_not_mem hs
    have c2 : (svc.slotsOf T).count s2 = 0 := List.count_eq_zero_of_not_mem hs2'
    have hne' : ¬ s2 = s := fun h => hne h.symm
    simp [List.count_append, List.count_cons, c1, c2, hne, hne']

/-- A concrete case of C8: slots 10 and 11 subscribed to `Ping` one after the
other on the empty registry, then one dispatch of `Ping{id:1}`. -/
theorem lazy_creation_idempotent_witness :
    ∃ svc' svc2, MessageService.empty.subscribeToMessage 1 10 = some svc' ∧
      svc'.mSignalContainers = [(1, ⟨1, ⟨[10]⟩⟩)] ∧
      svc'.subscribeToMessage 1 11 = some svc2 ∧
      svc2.mSignalContainers.keys.count 1 = 1 ∧
      (svc2.dispatchMessage demoTypes quiet 1 ⟨1, 1⟩).calls.count (10, ⟨1, 1⟩) = 1 ∧
      (svc2.dispatchMessage demoTypes quiet 1 ⟨1, 1⟩).calls.count (11, ⟨1, 1⟩) = 1 :=
  have h := lazy_creation_idempotent demoTypes quiet MessageService.empty 1 10
    (MessageService.empty_reachable demoTypes quiet)
  match h with
  | ⟨svc', h1, habsent, _, _, hpair⟩ =>
    match hpair 11 with
    | ⟨svc2, h2, hone, _, hcalls⟩ =>
      have hc := hcalls ⟨1, 1⟩ (by decide) (by decide) (by decide) (by decide) (fun _ _ => rfl)
      ⟨svc', svc2, h1, habsent (by decide), h2, hone, hc.1, hc.2⟩

/-- C9, no uniqueness check on connect: in a reachable registry state in which
slot `s` is not connected to `T`, `k` calls of `subscribeToMessage<T>(s)` in a
row go through and put `k` occurrences of `s` at the end of the sequence of `T`;
one `dispatchMessage<T>(m)` then invokes `s` exactly `k` times, so twice after two
subscriptions (`m` a message, the callbacks connected to `T` returning). -/
theorem no_uniqueness_check (rtti : TypeRegistry) (cb : Callbacks) (svc : MessageService)
    (T : TypeInfo) (s : Slot) (m : Message) (k : Nat)
    (hreach : svc.Reachable rtti cb)
    (hs : s ∉ svc.slotsOf T)
    (hm : rtti.is_derived_from m.type rtti.messageBase = true)
    (hret : ∀ t ∈ svc.slotsOf T, cb t m = none)
    (hrets : cb s m = none) :
    ∃ svc', svc.subscribeAll T (List.replicate k s) = some svc' ∧
      svc'.slotsOf T = svc.slotsOf T ++ List.replicate k s ∧
      (svc'.dispatchMessage rtti cb T m).calls.count (s, m) = k ∧
      receivedBy s (svc'.dispatchMessage rtti cb T m).calls = List.replicate k m := by
  obtain ⟨svc', h1, hw1, hs1, _⟩ :=
    MessageService.subscribeAll_effect T (List.replicate k s) svc hreach.wellTyped
  have hall : ∀ t ∈ svc'.slotsOf T, cb t m = none := by
    intro t ht
    rw [hs1] at ht
    rcases List.mem_append.1 ht with h | h
    · exact hret t h
    · rw [(List.mem_replicate.1 h).2]
      exact hrets
  have hd := svc'.dispatchMessage_returning rtti cb T m hw1 hm hall
  refine ⟨svc', h1, hs1, ?_, ?_⟩
  · rw [hd, hs1]
    simp only
    rw [count_invocations]
    simp [List.count_append, List.count_eq_zero_of_not_mem hs]
  · rw [hd, hs1]
    simp only
    rw [List.map_append, receivedBy_append,
      receivedBy_of_prefix_not_mem s m (svc.slotsOf T) _ (List.prefix_refl _) hs]
    simp [receivedBy, List.map_replicate, List.filter_replicate]

/-- A concrete case of C9: slot 10 subscribed twice to `Ping` on a registry that
has slot 20 under `Ping`; one dispatch invokes slot 10 twice. -/
theorem no_uniqueness_check_witness :
    ∃ svc', pingRegistry.subscribeAll 1 [10, 10] = some svc' ∧
      svc'.slotsOf 1 = [20, 10, 10] ∧
      (svc'.dispatchMessage demoTypes quiet 1 ⟨1, 3⟩).calls.count (10, ⟨1, 3⟩) = 2 ∧
      receivedBy 10 (svc'.dispatchMessage demoTypes quiet 1 ⟨1, 3⟩).calls = [⟨1, 3⟩, ⟨1, 3⟩] :=
  no_uniqueness_check demoTypes quiet pingRegistry 1 10 ⟨1, 3⟩ 2
    (pingRegistry_reachable quiet) (by decide) (by decide) (fun _ _ => rfl) rfl

/-- C10, disconnect removes the first occurrence only: in a reachable registry
state with a group for `T`, `unsubscribeFromMessage<T>(s)` goes through; when the
sequence of `T` is `pre ++ s :: post` with `s` not in `pre`, it becomes
`pre ++ post`, every other element and every later occurrence of `s` staying in
place and in order; the entries of all other tags and the set of tags are
unchanged. If `s` was connected twice, `s` is invoked exactly once by a dispatch
after one unsubscribe (`m` a message, the callbacks connected to `T`
returning). -/
theorem disconnect_first_occurrence (rtti : TypeRegistry) (cb : Callbacks)
    (svc : MessageService) (T : TypeInfo) (s : Slot)
    (hreach : svc.Reachable rtti cb)
    (hgroup : svc.hasGroup T = true) :
    ∃ svc', svc.unsubscribeFromMessage T s = some svc' ∧
      (∀ pre post : List Slot, svc.slotsOf T = pre ++ s :: post → s ∉ pre →
        svc'.slotsOf T = pre ++ post) ∧
      svc'.mSignalContainers.keys = svc.mSignalContainers.keys ∧
      (∀ T', T' ≠ T → svc'.mSignalContainers.find T' = svc.mSignalContainers.find T') ∧
      ∀ m : Message, (svc.slotsOf T).count s = 2 →
        rtti.is_derived_from m.type rtti.messageBase = true →
        (∀ t ∈ svc.slotsOf T, cb t m = none) →
        (svc'.dispatchMessage rtti cb T m).calls.count (s, m) = 1 := by
  have _ := hgroup
  obtain ⟨svc', h1, hw1, hs1, hk, hf⟩ := svc.unsubscribeFromMessage_effect T s hreach.wellTyped
  refine ⟨svc', h1, ?_, hk, hf, ?_⟩
  · intro pre post hsplit hpre
    rw [hs1, hsplit, List.erase_append_right _ hpre]
    simp
  · intro m hcount hm hret
    have hall : ∀ t ∈ svc'.slotsOf T, cb t m = none := by
      intro t ht
      rw [hs1] at ht
      exact hret t (List.mem_of_mem_erase ht)
    rw [svc'.dispatchMessage_returning rtti cb T m hw1 hm hall, hs1]
    simp only
    rw [count_invocations, List.count_erase_self, hcount]

theorem doubledRegistry_reachable (cb : Callbacks) : doubledRegistry.Reachable demoTypes cb :=
  ⟨[.subscribe 1 10, .subscribe 1 20, .subscribe 1 10], rfl⟩

/-- A concrete case of C10: slot 10 is connected twice to `Ping`, around slot 20;
one unsubscribe removes the first of the two, and a dispatch then invokes slot
10 once. -/
theorem disconnect_first_occurrence_witness :
    doubledRegistry.slotsOf 1 = [10, 20, 10] ∧
    ∃ svc', doubledRegistry.unsubscribeFromMessage 1 10 = some svc' ∧
      svc'.slotsOf 1 = [20, 10] ∧
      (svc'.dispatchMessage demoTypes quiet 1 ⟨1, 3⟩).calls.count (10, ⟨1, 3⟩) = 1 :=
  have h := disconnect_first_occurrence demoTypes quiet doubledRegistry 1 10
    (doubledRegistry_reachable quiet) (by decide)
  match h with
  | ⟨svc', h1, hfirst, _, _, honce⟩ =>
    ⟨by decide, svc', h1, hfirst [] [20, 10] (by decide) (by decide),
      honce ⟨1, 3⟩ (by decide) (by decide) (fun _ _ => rfl)⟩

/-! ## Assertions, exceptions and the set of tags -/

theorem ContainerMap.assign_assign (m : ContainerMap) (k : TypeInfo) (v w : SignalContainer) :
    (m.assign k v).assign k w = m.assign k w := by
  induction m with
  | nil => rfl
  | cons e rest ih =>
    obtain ⟨k0, c0⟩ := e
    by_cases hk : k0 = k
    · simp [ContainerMap.assign, hk]
    · simp [ContainerMap.assign, hk, ih]

theorem MessageService.hasGroup_iff_mem_keys (svc : MessageService) (T : TypeInfo) :
    svc.hasGroup T = true ↔ T ∈ svc.mSignalContainers.keys := by
  unfold MessageService.hasGroup
  cases hf : svc.mSignalContainers.find T with
  | none =>
    have := (ContainerMap.find_eq_none_iff _ _).1 hf
    simp [this]
  | some c =>
    have : T ∈ svc.mSignalContainers.keys := by
      by_contra hnot
      rw [(ContainerMap.find_eq_none_iff _ _).2 hnot] at hf
      cases hf
    simp [this]

theorem MessageService.find_eq_none_of_hasGroup_false {svc : MessageService} {T : TypeInfo}
    (h : svc.hasGroup T = false) : svc.mSignalContainers.find T = none := by
  unfold MessageService.hasGroup at h
  cases hf : svc.mSignalContainers.find T with
  | none => rfl
  | some c => simp [hf] at h

theorem triggerSlots_of_raising (cb : Callbacks) (message : Message) (pre post : List Slot)
    (sk : Slot) (e : Exception) (hpre : ∀ t ∈ pre, cb t message = none)
    (hk : cb sk message = some e) :
    triggerSlots cb message (pre ++ sk :: post)
      = (pre.map (fun t => (t, message)) ++ [(sk, message)], some e) := by
  rw [triggerSlots_append_of_returning cb message pre (sk :: post) hpre]
  simp [triggerSlots, hk]

theorem MessageService.dispatchMessage_invalid (rtti : TypeRegistry) (cb : Callbacks)
    (svc : MessageService) (T : TypeInfo) (message : Message)
    (hm : rtti.is_derived_from message.type rtti.messageBase = false) :
    svc.dispatchMessage rtti cb T message = ⟨svc, [], .assertionFailed⟩ := by
  simp [MessageService.dispatchMessage, hm]

theorem MessageService.dispatchMessage_outcome (rtti : TypeRegistry) (cb : Callbacks)
    (svc : MessageService) (T : TypeInfo) (message : Message)
    (hw : svc.mSignalContainers.WellTyped)
    (hm : rtti.is_derived_from message.type rtti.messageBase = true) :
    (svc.dispatchMessage rtti cb T message).outcome
      = match (triggerSlots cb message (svc.slotsOf T)).2 with
        | none => .returned
        | some e => .raised e := by
  unfold MessageService.slotsOf MessageService.dispatchMessage
  simp only [hm, if_true]
  cases hf : svc.mSignalContainers.find T with
  | none => simp [triggerSlots]
  | some c =>
    simp only [ContainerMap.as_of_find hw hf, SignalContainer.trigger, Signal.trigger]
    split
    · next calls heq => rw [heq]
    · next calls e heq => rw [heq]

theorem MessageService.dispatchMessage_assertion_iff (rtti : TypeRegistry) (cb : Callbacks)
    (svc : MessageService) (T : TypeInfo) (message : Message)
    (hw : svc.mSignalContainers.WellTyped) :
    (svc.dispatchMessage rtti cb T message).outcome = .assertionFailed
      ↔ rtti.is_derived_from message.type rtti.messageBase = false := by
  cases hm : rtti.is_derived_from message.type rtti.messageBase with
  | false => simp [svc.dispatchMessage_invalid rtti cb T message hm]
  | true =>
    rw [svc.dispatchMessage_outcome rtti cb T message hw hm]
    cases (triggerSlots cb message (svc.slotsOf T)).2 <;> simp

theorem MessageService.step_total (rtti : TypeRegistry) (cb : Callbacks) (svc : MessageService)
    (c : Call) (hw : svc.mSignalContainers.WellTyped) (hc : c.messageOk rtti = true) :
    ∃ svc', svc.step rtti cb c = some svc' := by
  cases c with
  | subscribe T slot =>
    obtain ⟨s1, h1, _⟩ := svc.subscribeToMessage_effect T slot hw
    exact ⟨s1, h1⟩
  | unsubscribe T slot =>
    obtain ⟨s1, h1, _⟩ := svc.unsubscribeFromMessage_effect T slot hw
    exact ⟨s1, h1⟩
  | dispatch T message =>
    simp only [Call.messageOk] at hc
    have hne : ¬ (svc.dispatchMessage rtti cb T message).outcome = .assertionFailed := by
      rw [svc.dispatchMessage_assertion_iff rtti cb T message hw, hc]
      simp
    exact ⟨(svc.dispatchMessage rtti cb T message).registry, by simp [MessageService.step, hne]⟩

theorem MessageService.run_total (rtti : TypeRegistry) (cb : Callbacks) (calls : List Call)
    (svc : MessageService) (hw : svc.mSignalContainers.WellTyped)
    (hall : ∀ c ∈ calls, c.messageOk rtti = true) :
    ∃ svc', MessageService.run rtti cb svc calls = some svc' := by
  induction calls generalizing svc with
  | nil => exact ⟨svc, rfl⟩
  | cons c rest ih =>
    obtain ⟨s1, h1⟩ := svc.step_total rtti cb c hw (hall c (List.mem_cons_self _ _))
    obtain ⟨s2, h2⟩ := ih s1 (MessageService.step_wellTyped rtti cb c hw h1)
      (fun d hd => hall d (List.mem_cons_of_mem _ hd))
    exact ⟨s2, by simp [MessageService.run, h1, h2]⟩

theorem MessageService.step_keys_subset (rtti : TypeRegistry) (cb : Callbacks)
    {svc svc' : MessageService} (c : Call) (hw : svc.mSignalContainers.WellTyped)
    (h : svc.step rtti cb c = some svc') :
    ∀ T, T ∈ svc.mSignalContainers.keys → T ∈ svc'.mSignalContainers.keys := by
  intro T' hT'
  cases c with
  | subscribe T slot =>
    simp only [MessageService.step] at h
    rw [svc.subscribeToMessage_keys T slot hw h]
    split
    · exact hT'
    · exact List.mem_cons_of_mem _ hT'
  | unsubscribe T slot =>
    obtain ⟨s1, h1, _, _, hk, _⟩ := svc.unsubscribeFromMessage_effect T slot hw
    simp only [MessageService.step] at h
    rw [h1] at h
    cases h
    rw [hk]
    exact hT'
  | dispatch T message =>
    simp only [MessageService.step] at h
    split at h
    · cases h
    · cases h
      rw [MessageService.dispatchMessage_registry]
      exact hT'

theorem MessageService.run_keys_subset (rtti : TypeRegistry) (cb : Callbacks)
    (calls : List Call) {svc svc' : MessageService} (hw : svc.mSignalContainers.WellTyped)
    (h : MessageService.run rtti cb svc calls = some svc') :
    ∀ T, T ∈ svc.mSignalContainers.keys → T ∈ svc'.mSignalContainers.keys := by
  induction calls generalizing svc with
  | nil =>
    simp only [MessageService.run] at h
    cases h
    exact fun _ hT => hT
  | cons c rest ih =>
    simp only [MessageService.run] at h
    cases hs : svc.step rtti cb c with
    | none => rw [hs] at h; cases h
    | some s1 =>
      rw [hs] at h
      intro T hT
      exact ih (MessageService.step_wellTyped rtti cb c hw hs) h T
        (MessageService.step_keys_subset rtti cb c hw hs T hT)

/-! ## Interleaved connects and disconnects of one slot -/

theorem neverBelow_of_take (ops : List Bool) (depth : Nat)
    (h : ∀ k, k ≤ ops.length →
      (ops.take k).count false ≤ depth + (ops.take k).count true) :
    neverBelow depth ops = true := by
  induction ops generalizing depth with
  | nil => simp [neverBelow]
  | cons b rest ih =>
    cases b with
    | true =>
      simp only [neverBelow]
      apply ih
      intro k hk
      have := h (k + 1) (by simp only [List.length_cons]; omega)
      simp only [List.take_succ_cons] at this
      simp [List.count_cons] at this
      omega
    | false =>
      cases depth with
      | zero =>
        have := h 1 (by simp only [List.length_cons]; omega)
        simp [List.count_cons] at this
      | succ d =>
        simp only [neverBelow]
        apply ih
        intro k hk
        have := h (k + 1) (by simp only [List.length_cons]; omega)
        simp only [List.take_succ_cons] at this
        simp [List.count_cons] at this
        omega

theorem MessageService.run_pairCalls (rtti : TypeRegistry) (cb : Callbacks) (T : TypeInfo)
    (s : Slot) (base : List Slot) (hbase : s ∉ base) (ops : List Bool) :
    ∀ (depth : Nat) (svc : MessageService), svc.mSignalContainers.WellTyped →
      svc.slotsOf T = base ++ List.replicate depth s → neverBelow depth ops = true →
      ∃ (svc' : MessageService) (depth' : Nat),
        MessageService.run rtti cb svc (pairCalls T s ops) = some svc' ∧
        svc'.slotsOf T = base ++ List.replicate depth' s ∧
        depth' + ops.count false = depth + ops.count true := by
  induction ops with
  | nil =>
    intro depth svc _ hs _
    exact ⟨svc, depth, rfl, hs, rfl⟩
  | cons b rest ih =>
    intro depth svc hw hs hnb
    cases b with
    | true =>
      obtain ⟨s1, h1, hw1, hs1, _⟩ := svc.subscribeToMessage_effect T s hw
      have hs1' : s1.slotsOf T = base ++ List.replicate (depth + 1) s := by
        rw [hs1, hs, List.replicate_succ', List.append_assoc]
      simp only [neverBelow] at hnb
      obtain ⟨s2, d2, h2, hs2, hd2⟩ := ih (depth + 1) s1 hw1 hs1' hnb
      refine ⟨s2, d2, ?_, hs2, ?_⟩
      · simp [pairCalls, MessageService.run, MessageService.step, h1]
        exact h2
      · simp [List.count_cons]
        omega
    | false =>
      cases depth with
      | zero => simp [neverBelow] at hnb
      | succ d =>
        obtain ⟨s1, h1, hw1, hs1, _⟩ := svc.unsubscribeFromMessage_effect T s hw
        have hs1' : s1.slotsOf T = base ++ List.replicate d s := by
          rw [hs1, hs, List.erase_append_right _ hbase, List.replicate_succ,
            List.erase_cons_head]
        simp only [neverBelow] at hnb
        obtain ⟨s2, d2, h2, hs2, hd2⟩ := ih d s1 hw1 hs1' hnb
        refine ⟨s2, d2, ?_, hs2, ?_⟩
        · simp [pairCalls, MessageService.run, MessageService.step, h1]
          exact h2
        · simp [List.count_cons]
          omega

/-- C11, repeated connect and disconnect pairs fully drain: in a reachable
registry state in which slot `s` is not connected to `T`, take `n` calls of
`subscribeToMessage<T>(s)` and `n` calls of `unsubscribeFromMessage<T>(s)` in any
interleaving `ops` (`true` a subscribe, `false` an unsubscribe) of which no
initial part has more unsubscribes than subscribes. The calls go through, the
sequence of `T` is then the one before them, it has no occurrence of `s`, and a
`dispatchMessage<T>(m)` after them never invokes `s`. -/
theorem connect_disconnect_pairs_drain (rtti : TypeRegistry) (cb : Callbacks)
    (svc : MessageService) (T : TypeInfo) (s : Slot) (m : Message) (n : Nat)
    (ops : List Bool)
    (hreach : svc.Reachable rtti cb)
    (hs : s ∉ svc.slotsOf T)
    (hsub : ops.count true = n)
    (hunsub : ops.count false = n)
    (hinitial : ∀ k, k ≤ ops.length → (ops.take k).count false ≤ (ops.take k).count true) :
    ∃ svc', MessageService.run rtti cb svc (pairCalls T s ops) = some svc' ∧
      svc'.slotsOf T = svc.slotsOf T ∧
      s ∉ svc'.slotsOf T ∧
      (svc'.slotsOf T).count s = 0 ∧
      ∀ i ∈ (svc'.dispatchMessage rtti cb T m).calls, i.1 ≠ s := by
  have hnb : neverBelow 0 ops = true :=
    neverBelow_of_take ops 0 (fun k hk => by have := hinitial k hk; omega)
  obtain ⟨svc', d', hrun, hslots, hd⟩ :=
    MessageService.run_pairCalls rtti cb T s (svc.slotsOf T) hs ops 0 svc hreach.wellTyped
      (by simp) hnb
  have hzero : d' = 0 := by omega
  subst hzero
  have hsame : svc'.slotsOf T = svc.slotsOf T := by simpa using hslots
  have hnot : s ∉ svc'.slotsOf T := by rw [hsame]; exact hs
  refine ⟨svc', hrun, hsame, hnot, List.count_eq_zero_of_not_mem hnot, ?_⟩
  intro i hi hs'
  obtain ⟨t, ht, hti⟩ :=
    List.mem_map.1 ((svc'.dispatchMessage_calls_prefix rtti cb T m).subset hi)
  subst hti
  exact hnot (hs' ▸ ht)

/-- A concrete case of C11: on `pingRegistry`, slot 10 subscribed to `Ping` three
times and unsubscribed three times, the calls interleaved. -/
theorem connect_disconnect_pairs_drain_witness :
    ∃ svc', MessageService.run demoTypes quiet pingRegistry
        (pairCalls 1 10 [true, true, false, true, false, false]) = some svc' ∧
      svc'.slotsOf 1 = pingRegistry.slotsOf 1 ∧
      10 ∉ svc'.slotsOf 1 ∧
      (svc'.slotsOf 1).count 10 = 0 ∧
      ∀ i ∈ (svc'.dispatchMessage demoTypes quiet 1 ⟨1, 4⟩).calls, i.1 ≠ 10 :=
  connect_disconnect_pairs_drain demoTypes quiet pingRegistry 1 10 ⟨1, 4⟩ 3
    [true, true, false, true, false, false] (pingRegistry_reachable quiet) (by decide)
    (by decide) (by decide) (by decide)

theorem raisingRegistry_reachable (cb : Callbacks) : raisingRegistry.Reachable demoTypes cb :=
  ⟨[.subscribe 1 10, .subscribe 1 66, .subscribe 1 12], rfl⟩

theorem TypeRegistry.is_derived_from_iff (rtti : TypeRegistry) (t other : TypeInfo) :
    rtti.is_derived_from t other = true ↔ (t = other ∨ other ∈ rtti.bases t) := by
  simp [TypeRegistry.is_derived_from]

/-- C12, fail-fast subscriber failure: in a reachable registry state whose
sequence for `T` is `pre ++ sk :: post`, with a message `m` on which the
callbacks of `pre` return and the callback of `sk` raises `e`, so that `sk` is
the first subscriber that raises, `dispatchMessage<T>(m)` invokes the slots of
`pre` and then `sk`, in order, invokes none of `post`, and ends with that same
exception `e`; the registry after it is the one before it, so the map and the
sequence of `T` are unchanged. -/
theorem fail_fast_subscriber_failure (rtti : TypeRegistry) (cb : Callbacks)
    (svc : MessageService) (T : TypeInfo) (m : Message) (pre post : List Slot) (sk : Slot)
    (e : Exception)
    (hreach : svc.Reachable rtti cb)
    (hm : rtti.is_derived_from m.type rtti.messageBase = true)
    (hslots : svc.slotsOf T = pre ++ sk :: post)
    (hpre : ∀ t ∈ pre, cb t m = none)
    (hk : cb sk m = some e) :
    svc.dispatchMessage rtti cb T m
        = ⟨svc, (pre ++ [sk]).map (fun t => (t, m)), .raised e⟩ ∧
      (svc.dispatchMessage rtti cb T m).registry.slotsOf T = pre ++ sk :: post := by
  have hw := hreach.wellTyped
  have hr := svc.dispatchMessage_registry rtti cb T m
  have hc := svc.dispatchMessage_calls rtti cb T m hw hm
  have ho := svc.dispatchMessage_outcome rtti cb T m hw hm
  rw [hslots, triggerSlots_of_raising cb m pre post sk e hpre hk] at hc ho
  simp only at hc ho
  refine ⟨?_, by rw [hr]; exact hslots⟩
  cases hd : svc.dispatchMessage rtti cb T m with
  | mk r c o =>
    rw [hd] at hr hc ho
    simp only at hr hc ho
    subst hr hc ho
    simp

/-- A concrete case of C12: slots 10, 66 and 12 are connected to `Ping` and the
callback of slot 66 raises; a dispatch invokes 10 and 66, not 12, and ends with
the exception of slot 66. -/
theorem fail_fast_subscriber_failure_witness :
    raisingRegistry.dispatchMessage demoTypes slot66Raises 1 ⟨1, 7⟩
        = ⟨raisingRegistry, [(10, ⟨1, 7⟩), (66, ⟨1, 7⟩)], .raised ⟨1⟩⟩ ∧
      (raisingRegistry.dispatchMessage demoTypes slot66Raises 1 ⟨1, 7⟩).registry.slotsOf 1
        = [10, 66, 12] :=
  fail_fast_subscriber_failure demoTypes slot66Raises raisingRegistry 1 ⟨1, 7⟩ [10] [12] 66 ⟨1⟩
    (raisingRegistry_reachable slot66Raises) (by decide) (by decide) (by decide) (by decide)

/-- C13, the dispatch precondition is checked before the lookup: in a reachable
registry state `dispatchMessage<T>(message)` fails with an assertion exactly
when the run-time type of `message` is neither `MessageBase` nor a type derived
from it; it then fails before any lookup, invoking no callback, whether or not a
group exists for the tag of `T`; when the precondition holds no assertion
fires. -/
theorem dispatch_precondition_first (rtti : TypeRegistry) (cb : Callbacks)
    (svc : MessageService) (T : TypeInfo) (message : Message)
    (hreach : svc.Reachable rtti cb) :
    ((svc.dispatchMessage rtti cb T message).outcome = .assertionFailed
      ↔ ¬ (message.type = rtti.messageBase ∨ rtti.messageBase ∈ rtti.bases message.type)) ∧
    (rtti.is_derived_from message.type rtti.messageBase = false →
      svc.dispatchMessage rtti cb T message = ⟨svc, [], .assertionFailed⟩) ∧
    (rtti.is_derived_from message.type rtti.messageBase = true →
      (svc.dispatchMessage rtti cb T message).outcome ≠ .assertionFailed) := by
  have hiff := svc.dispatchMessage_assertion_iff rtti cb T message hreach.wellTyped
  refine ⟨?_, svc.dispatchMessage_invalid rtti cb T message, ?_⟩
  · rw [hiff, ← rtti.is_derived_from_iff]
    simp
  · intro hm hfail
    rw [hiff, hm] at hfail
    cases hfail

/-- Two concrete cases of C13 on `pingRegistry`, with a value of class 9, which
is outside the message hierarchy: dispatched to `Pong`, which has no group, and
to `Ping`, which has one, it fails the assertion with no callback invoked. -/
theorem dispatch_precondition_first_witness :
    pingRegistry.hasGroup 3 = false ∧ pingRegistry.hasGroup 1 = true ∧
    pingRegistry.dispatchMessage demoTypes quiet 3 ⟨9, 7⟩
      = ⟨pingRegistry, [], .assertionFailed⟩ ∧
    pingRegistry.dispatchMessage demoTypes quiet 1 ⟨9, 7⟩
      = ⟨pingRegistry, [], .assertionFailed⟩ ∧
    (pingRegistry.dispatchMessage demoTypes quiet 1 ⟨1, 7⟩).outcome ≠ .assertionFailed :=
  ⟨by decide, by decide,
    (dispatch_precondition_first demoTypes quiet pingRegistry 3 ⟨9, 7⟩
      (pingRegistry_reachable quiet)).2.1 (by decide),
    (dispatch_precondition_first demoTypes quiet pingRegistry 1 ⟨9, 7⟩
      (pingRegistry_reachable quiet)).2.1 (by decide),
    (dispatch_precondition_first demoTypes quiet pingRegistry 1 ⟨1, 7⟩
      (pingRegistry_reachable quiet)).2.2 (by decide)⟩

/-- C14, instance test and checked narrowing on messages: for every message
value `v` and type `U`, `v.is<U>()` is true exactly when the run-time type of `v`
is `U` or a type that has `U` among its base classes; `v.as<U>()` returns `v`
itself when `v.is<U>()` holds and fails its assertion otherwise. -/
theorem message_is_and_as (rtti : TypeRegistry) (v : Message) (U : TypeInfo) :
    (v.is rtti U = true ↔ (v.type = U ∨ U ∈ rtti.bases v.type)) ∧
    (v.is rtti U = true → v.as rtti U = some v) ∧
    (v.is rtti U = false → v.as rtti U = none) ∧
    (∀ w, v.as rtti U = some w → w = v ∧ v.is rtti U = true) := by
  refine ⟨rtti.is_derived_from_iff v.type U, ?_, ?_, ?_⟩
  · intro h
    simp [Message.as, h]
  · intro h
    simp [Message.as, h]
  · intro w h
    unfold Message.as at h
    split at h
    · next hv => exact ⟨(Option.some.inj h).symm, hv⟩
    · cases h

/-- C15, soundness of the erased map: in every registry state reachable from
the empty registry by `subscribeToMessage`, `unsubscribeFromMessage` and
`dispatchMessage` calls, for any types, there is at most one entry per type tag
and the container stored under the tag of `T` is a `SignalContainer<T>`, so that
the downcast `as<SignalContainer<T>>()` succeeds; hence `subscribeToMessage` and
`unsubscribeFromMessage` never fail an assertion, and `dispatchMessage` of a
message (a value of a class derived from `MessageBase`) never does. -/
theorem erased_map_soundness (rtti : TypeRegistry) (cb : Callbacks) (svc : MessageService)
    (hreach : svc.Reachable rtti cb) :
    svc.mSignalContainers.keys.Nodup ∧
    (∀ e ∈ svc.mSignalContainers, e.2.messageType = e.1) ∧
    (∀ T c, svc.mSignalContainers.find T = some c → c.is T = true ∧ c.as T = some c) ∧
    ∀ (T : TypeInfo) (s : Slot),
      (svc.subscribeToMessage T s).isSome = true ∧
      (svc.unsubscribeFromMessage T s).isSome = true ∧
      ∀ m : Message, rtti.is_derived_from m.type rtti.messageBase = true →
        (svc.dispatchMessage rtti cb T m).outcome ≠ .assertionFailed := by
  have hw := hreach.wellTyped
  refine ⟨hreach.keys_nodup, hw, ?_, ?_⟩
  · intro T c hf
    have hc : c.messageType = T := hw _ (ContainerMap.find_mem hf)
    exact ⟨by simp [SignalContainer.is, hc], ContainerMap.as_of_find hw hf⟩
  · intro T s
    obtain ⟨s1, h1, _⟩ := svc.subscribeToMessage_effect T s hw
    obtain ⟨s2, h2, _⟩ := svc.unsubscribeFromMessage_effect T s hw
    refine ⟨by rw [h1]; rfl, by rw [h2]; rfl, ?_⟩
    intro m hm hfail
    rw [svc.dispatchMessage_assertion_iff rtti cb T m hw, hm] at hfail
    cases hfail

/-- A concrete case of C15: the state after subscribing to `Ping`, to `Pong`, to
`Ping` again, dispatching a `Ping` on which a callback raises, and unsubscribing
from `DerivedPing`. -/
theorem erased_map_soundness_witness :
    ∃ svc, MessageService.run demoTypes slot66Raises MessageService.empty
        [.subscribe 1 66, .subscribe 3 5, .subscribe 1 7, .dispatch 1 ⟨1, 0⟩,
          .unsubscribe 2 66] = some svc ∧
      svc.mSignalContainers.keys.Nodup ∧
      (∀ e ∈ svc.mSignalContainers, e.2.messageType = e.1) ∧
      (svc.subscribeToMessage 2 8).isSome = true :=
  have hrun : MessageService.run demoTypes slot66Raises MessageService.empty
      [.subscribe 1 66, .subscribe 3 5, .subscribe 1 7, .dispatch 1 ⟨1, 0⟩, .unsubscribe 2 66]
      = some ⟨[(3, ⟨3, ⟨[5]⟩⟩), (1, ⟨1, ⟨[66, 7]⟩⟩)]⟩ := by decide
  have h := erased_map_soundness demoTypes slot66Raises _ ⟨_, hrun⟩
  ⟨_, hrun, h.1, h.2.1, (h.2.2.2 2 8).1⟩

/-- C16, a group never reverts to absent: in a reachable registry state
`subscribeToMessage<T>(s)` goes through and leaves an entry under the tag of `T`,
and after every later sequence of `subscribeToMessage`, `unsubscribeFromMessage`
and `dispatchMessage` calls the entry is still there, also when unsubscribes
have emptied its sequence; every tag present before such a sequence is present
after it. The sequence goes through when its dispatches pass the message
assertion. -/
theorem group_never_reverts (rtti : TypeRegistry) (cb : Callbacks) (svc : MessageService)
    (T : TypeInfo) (s : Slot) (calls : List Call)
    (hreach : svc.Reachable rtti cb) :
    ∃ svc1, svc.subscribeToMessage T s = some svc1 ∧
      svc1.hasGroup T = true ∧
      (∀ svc2, MessageService.run rtti cb svc1 calls = some svc2 →
        svc2.hasGroup T = true ∧
        ∀ T', svc1.hasGroup T' = true → svc2.hasGroup T' = true) ∧
      (∀ svc2, MessageService.run rtti cb svc calls = some svc2 →
        ∀ T', svc.hasGroup T' = true → svc2.hasGroup T' = true) ∧
      ((∀ c ∈ calls, c.messageOk rtti = true) →
        ∃ svc2, MessageService.run rtti cb svc1 calls = some svc2) := by
  have hw := hreach.wellTyped
  obtain ⟨svc1, h1, hw1, hs1, _⟩ := svc.subscribeToMessage_effect T s hw
  have hg1 : svc1.hasGroup T = true := by
    unfold MessageService.hasGroup
    cases hf : svc1.mSignalContainers.find T with
    | none =>
      have : svc1.slotsOf T = [] := by simp [MessageService.slotsOf, hf]
      rw [hs1] at this
      simp at this
    | some c => rfl
  have hmono : ∀ (a b : MessageService), a.mSignalContainers.WellTyped →
      MessageService.run rtti cb a calls = some b →
      ∀ T', a.hasGroup T' = true → b.hasGroup T' = true := by
    intro a b ha hrun T' hT'
    rw [MessageService.hasGroup_iff_mem_keys] at hT' ⊢
    exact MessageService.run_keys_subset rtti cb calls ha hrun T' hT'
  refine ⟨svc1, h1, hg1, ?_, ?_, ?_⟩
  · intro svc2 hrun
    exact ⟨hmono svc1 svc2 hw1 hrun T hg1, hmono svc1 svc2 hw1 hrun⟩
  · intro svc2 hrun
    exact hmono svc svc2 hw hrun
  · intro hall
    exact MessageService.run_total rtti cb calls svc1 hw1 hall

/-- A concrete case of C16: slot 10 subscribed to `Ping` on the empty registry,
then unsubscribed, a `Ping` dispatched and slot 4 subscribed to `Pong`: the
entry of `Ping` is still there, with an empty sequence. -/
theorem group_never_reverts_witness :
    ∃ svc1 svc2, MessageService.empty.subscribeToMessage 1 10 = some svc1 ∧
      MessageService.run demoTypes quiet svc1
        [.unsubscribe 1 10, .dispatch 1 ⟨1, 3⟩, .subscribe 3 4] = some svc2 ∧
      svc2.hasGroup 1 = true ∧ svc2.slotsOf 1 = [] :=
  have h := group_never_reverts demoTypes quiet MessageService.empty 1 10
    [.unsubscribe 1 10, .dispatch 1 ⟨1, 3⟩, .subscribe 3 4]
    (MessageService.empty_reachable demoTypes quiet)
  match h with
  | ⟨svc1, h1, _, hkeep, _, htotal⟩ =>
    match htotal (by decide) with
    | ⟨svc2, h2⟩ =>
      ⟨svc1, svc2, h1, h2, (hkeep svc2 h2).1, by
        have e1 : svc1 = ⟨[(1, ⟨1, ⟨[10]⟩⟩)]⟩ := Option.some.inj (h1.symm.trans (by decide))
        subst e1
        have e2 : svc2 = ⟨[(3, ⟨3, ⟨[4]⟩⟩), (1, ⟨1, ⟨[]⟩⟩)]⟩ :=
          Option.some.inj (h2.symm.trans (by decide))
        subst e2
        decide⟩

/-! ## Frames -/

theorem MessageService.hasGroup_of_find_eq {svc svc' : MessageService} {T : TypeInfo}
    (h : svc'.mSignalContainers.find T = svc.mSignalContainers.find T) :
    svc'.hasGroup T = svc.hasGroup T := by
  simp [MessageService.hasGroup, h]

theorem MessageService.dispatchMessage_calls_of_returning (rtti : TypeRegistry)
    (cb cb' : Callbacks) (svc : MessageService) (T : TypeInfo) (message : Message)
    (h : ∀ t ∈ svc.slotsOf T, cb t message = none)
    (h' : ∀ t ∈ svc.slotsOf T, cb' t message = none) :
    (svc.dispatchMessage rtti cb' T message).calls
      = (svc.dispatchMessage rtti cb T message).calls := by
  unfold MessageService.slotsOf at h h'
  unfold MessageService.dispatchMessage
  split
  · cases hf : svc.mSignalContainers.find T with
    | none => rfl
    | some c =>
      rw [hf] at h h'
      cases ha : c.as T with
      | none => simp [ha]
      | some c' =>
        have hc : c' = c := by
          simp only [SignalContainer.as] at ha
          split at ha
          · exact (Option.some.inj ha).symm
          · cases ha
        subst hc
        simp [ha, SignalContainer.trigger, Signal.trigger,
          triggerSlots_of_returning cb message c'.mSignal.mSlots h,
          triggerSlots_of_returning cb' message c'.mSignal.mSlots h']
  · rfl

theorem MessageService.dispatchMessage_of_slotsOf_eq (rtti : TypeRegistry) (cb : Callbacks)
    {svc svc' : MessageService} (T : TypeInfo) (message : Message)
    (hw : svc.mSignalContainers.WellTyped) (hw' : svc'.mSignalContainers.WellTyped)
    (h : svc'.slotsOf T = svc.slotsOf T) :
    (svc'.dispatchMessage rtti cb T message).calls
        = (svc.dispatchMessage rtti cb T message).calls ∧
      (svc'.dispatchMessage rtti cb T message).outcome
        = (svc.dispatchMessage rtti cb T message).outcome := by
  cases hm : rtti.is_derived_from message.type rtti.messageBase with
  | false =>
    rw [svc.dispatchMessage_invalid rtti cb T message hm,
      svc'.dispatchMessage_invalid rtti cb T message hm]
    exact ⟨rfl, rfl⟩
  | true =>
    rw [svc.dispatchMessage_calls rtti cb T message hw hm,
      svc'.dispatchMessage_calls rtti cb T message hw' hm,
      svc.dispatchMessage_outcome rtti cb T message hw hm,
      svc'.dispatchMessage_outcome rtti cb T message hw' hm, h]
    exact ⟨rfl, rfl⟩

/-- C17, per-type frame: in every reachable registry state and for every type
`T`, `subscribeToMessage<T>(s)` and `unsubscribeFromMessage<T>(s)` go through and
change at most the entry under the tag of `T`: for every other tag the entry is
the same before and after the call, so is its presence and so is its subscriber
sequence. -/
theorem per_type_frame (rtti : TypeRegistry) (cb : Callbacks) (svc : MessageService)
    (T : TypeInfo) (s : Slot)
    (hreach : svc.Reachable rtti cb) :
    (∃ svc', svc.subscribeToMessage T s = some svc' ∧
      ∀ T', T' ≠ T →
        svc'.mSignalContainers.find T' = svc.mSignalContainers.find T' ∧
        svc'.hasGroup T' = svc.hasGroup T' ∧
        svc'.slotsOf T' = svc.slotsOf T') ∧
    (∃ svc', svc.unsubscribeFromMessage T s = some svc' ∧
      ∀ T', T' ≠ T →
        svc'.mSignalContainers.find T' = svc.mSignalContainers.find T' ∧
        svc'.hasGroup T' = svc.hasGroup T' ∧
        svc'.slotsOf T' = svc.slotsOf T') := by
  have hw := hreach.wellTyped
  obtain ⟨s1, h1, _, _, hf1⟩ := svc.subscribeToMessage_effect T s hw
  obtain ⟨s2, h2, _, _, _, hf2⟩ := svc.unsubscribeFromMessage_effect T s hw
  exact ⟨⟨s1, h1, fun T' hT' => ⟨hf1 T' hT', MessageService.hasGroup_of_find_eq (hf1 T' hT'),
      MessageService.slotsOf_of_find_eq (hf1 T' hT')⟩⟩,
    ⟨s2, h2, fun T' hT' => ⟨hf2 T' hT', MessageService.hasGroup_of_find_eq (hf2 T' hT'),
      MessageService.slotsOf_of_find_eq (hf2 T' hT')⟩⟩⟩

/-- A concrete case of C17 on `pingRegistry`: subscribing slot 30 to `Ping` and
unsubscribing slot 20 from `Ping` leave the sequence of `DerivedPing` as it
was. -/
theorem per_type_frame_witness :
    (∃ svc', pingRegistry.subscribeToMessage 1 30 = some svc' ∧ svc'.slotsOf 2 = [10]) ∧
    (∃ svc', pingRegistry.unsubscribeFromMessage 1 20 = some svc' ∧ svc'.slotsOf 2 = [10]) :=
  have h1 := per_type_frame demoTypes quiet pingRegistry 1 30 (pingRegistry_reachable quiet)
  have h2 := per_type_frame demoTypes quiet pingRegistry 1 20 (pingRegistry_reachable quiet)
  match h1.1, h2.2 with
  | ⟨a, ha, hfa⟩, ⟨b, hb, hfb⟩ =>
    ⟨⟨a, ha, (hfa 2 (by decide)).2.2.trans (by decide)⟩,
      ⟨b, hb, (hfb 2 (by decide)).2.2.trans (by decide)⟩⟩

/-- C18, dispatch does not modify the registry: in every registry state and for
every message `m`, with callbacks that do not call the registry,
`dispatchMessage<T>(m)` leaves the map as it was, so the set of tags and the
subscriber sequence of every group are as before; a second dispatch of `m` right
after it invokes the same slots in the same order, and does so whenever the
callbacks of the sequence return in both dispatches. -/
theorem dispatch_leaves_registry (rtti : TypeRegistry) (cb : Callbacks) (svc : MessageService)
    (T : TypeInfo) (m : Message) :
    (svc.dispatchMessage rtti cb T m).registry = svc ∧
    (svc.dispatchMessage rtti cb T m).registry.mSignalContainers.keys
      = svc.mSignalContainers.keys ∧
    (∀ T', (svc.dispatchMessage rtti cb T m).registry.slotsOf T' = svc.slotsOf T') ∧
    ((svc.dispatchMessage rtti cb T m).registry.dispatchMessage rtti cb T m).calls
      = (svc.dispatchMessage rtti cb T m).calls ∧
    ∀ cb' : Callbacks, (∀ t ∈ svc.slotsOf T, cb t m = none) →
      (∀ t ∈ svc.slotsOf T, cb' t m = none) →
      ((svc.dispatchMessage rtti cb T m).registry.dispatchMessage rtti cb' T m).calls
        = (svc.dispatchMessage rtti cb T m).calls := by
  have hr := svc.dispatchMessage_registry rtti cb T m
  refine ⟨hr, by rw [hr], fun T' => by rw [hr], by rw [hr], ?_⟩
  intro cb' h h'
  rw [hr]
  exact svc.dispatchMessage_calls_of_returning rtti cb cb' T m h h'

/-- C19, subscribe followed by unsubscribe is the identity only when the group
already exists: in a reachable registry state in which slot `s` is not in the
sequence of `T`, `subscribeToMessage<T>(s)` followed by
`unsubscribeFromMessage<T>(s)` goes through. With an entry for the tag of `T` the
result is the original registry state; with no entry it is the original state
plus an entry for `T` with an empty sequence, which is another state. On either
result a dispatch, of any type and message, invokes the same callbacks as on the
original state and ends the same way. -/
theorem subscribe_unsubscribe_roundtrip (rtti : TypeRegistry) (cb : Callbacks)
    (svc : MessageService) (T : TypeInfo) (s : Slot)
    (hreach : svc.Reachable rtti cb)
    (hs : s ∉ svc.slotsOf T) :
    ∃ svc1 svc2, svc.subscribeToMessage T s = some svc1 ∧
      svc1.unsubscribeFromMessage T s = some svc2 ∧
      (svc.hasGroup T = true → svc2 = svc) ∧
      (svc.hasGroup T = false →
        svc2.mSignalContainers = (T, ⟨T, ⟨[]⟩⟩) :: svc.mSignalContainers ∧ svc2 ≠ svc) ∧
      ∀ (T' : TypeInfo) (m : Message),
        (svc2.dispatchMessage rtti cb T' m).calls = (svc.dispatchMessage rtti cb T' m).calls ∧
        (svc2.dispatchMessage rtti cb T' m).outcome
          = (svc.dispatchMessage rtti cb T' m).outcome := by
  have hw := hreach.wellTyped
  obtain ⟨svc1, h1, hw1, hs1, hf1⟩ := svc.subscribeToMessage_effect T s hw
  obtain ⟨svc2, h2, hw2, hs2, _, hf2⟩ := svc1.unsubscribeFromMessage_effect T s hw1
  have hslotsT : svc2.slotsOf T = svc.slotsOf T := by
    rw [hs2, hs1, List.erase_append_right _ hs]
    simp
  have hslots : ∀ T', svc2.slotsOf T' = svc.slotsOf T' := by
    intro T'
    by_cases hT : T' = T
    · rw [hT]
      exact hslotsT
    · exact MessageService.slotsOf_of_find_eq ((hf2 T' hT).trans (hf1 T' hT))
  refine ⟨svc1, svc2, h1, h2, ?_, ?_, ?_⟩
  · intro hg
    unfold MessageService.hasGroup at hg
    cases hf : svc.mSignalContainers.find T with
    | none => simp [hf] at hg
    | some c =>
      have hsc : s ∉ c.mSignal.mSlots := by
        simpa [MessageService.slotsOf, hf] using hs
      have e1 := svc.subscribeToMessage_present T s hw hf
      rw [h1] at e1
      have e1' := Option.some.inj e1
      have hf1' : svc1.mSignalContainers.find T = some (c.connect s) := by
        rw [e1']
        exact ContainerMap.find_assign_same _ hf
      have e2 := svc1.unsubscribeFromMessage_present T s hw1 hf1'
      rw [h2] at e2
      have e2' := Option.some.inj e2
      have hback : (c.connect s).disconnect s = c := by
        cases c with
        | mk ty sig =>
          cases sig with
          | mk slots =>
            simp only [SignalContainer.connect, SignalContainer.disconnect, Signal.connect,
              Signal.disconnect] at hsc ⊢
            rw [List.erase_append_right _ hsc]
            simp
      rw [e2', e1', hback]
      simp only [ContainerMap.assign_assign, ContainerMap.assign_self hf]
  · intro hg
    have hf := MessageService.find_eq_none_of_hasGroup_false hg
    have e1 := svc.subscribeToMessage_absent T s hf
    rw [h1] at e1
    have e1' := Option.some.inj e1
    have hf1' : svc1.mSignalContainers.find T = some ⟨T, ⟨[s]⟩⟩ := by
      rw [e1']
      simp [ContainerMap.find]
    have e2 := svc1.unsubscribeFromMessage_present T s hw1 hf1'
    rw [h2] at e2
    have e2' := Option.some.inj e2
    have hmap : svc2.mSignalContainers = (T, ⟨T, ⟨[]⟩⟩) :: svc.mSignalContainers := by
      rw [e2', e1']
      simp [ContainerMap.assign, SignalContainer.disconnect, Signal.disconnect]
    refine ⟨hmap, ?_⟩
    intro heq
    rw [heq] at hmap
    have := congrArg List.length hmap
    simp at this
  · intro T' m
    exact MessageService.dispatchMessage_of_slotsOf_eq rtti cb T' m hw hw2 (hslots T')

/-- Two concrete cases of C19 on `pingRegistry`, with slot 30: subscribed to and
unsubscribed from `Ping`, which has a group, it leaves `pingRegistry`; with
`Pong`, which has none, it leaves `pingRegistry` plus an empty group for
`Pong`. -/
theorem subscribe_unsubscribe_roundtrip_witness :
    (∃ svc1, pingRegistry.subscribeToMessage 1 30 = some svc1 ∧
      svc1.unsubscribeFromMessage 1 30 = some pingRegistry) ∧
    (∃ svc1 svc2, pingRegistry.subscribeToMessage 3 30 = some svc1 ∧
      svc1.unsubscribeFromMessage 3 30 = some svc2 ∧
      svc2.mSignalContainers = (3, ⟨3, ⟨[]⟩⟩) :: pingRegistry.mSignalContainers ∧
      (svc2.dispatchMessage demoTypes quiet 3 ⟨3, 1⟩).calls
        = (pingRegistry.dispatchMessage demoTypes quiet 3 ⟨3, 1⟩).calls) :=
  have ha := subscribe_unsubscribe_roundtrip demoTypes quiet pingRegistry 1 30
    (pingRegistry_reachable quiet) (by decide)
  have hb := subscribe_unsubscribe_roundtrip demoTypes quiet pingRegistry 3 30
    (pingRegistry_reachable quiet) (by decide)
  match ha, hb with
  | ⟨a1, a2, ha1, ha2, hsame, _, _⟩, ⟨b1, b2, hb1, hb2, _, hplus, hdisp⟩ =>
    ⟨⟨a1, ha1, (hsame (by decide)) ▸ ha2⟩,
      ⟨b1, b2, hb1, hb2, (hplus (by decide)).1, (hdisp 3 ⟨3, 1⟩).1⟩⟩

end nap
